import Mathlib

/-!
gospeccy: memory, contention timing, screen addressing, the test library and the
front-end workers.

A shallow embedding of `src/spectrum/memory.go`, `src/spectrum/display.go`,
`src/prettytest/prettytest.go` and of the two worker loops of `src/gospeccy.go`.

* Go arrays `[n]T` are total maps on the indices below `n`; an index outside the
  array is a run-time panic, modelled by `none`.
* `uint16` addresses are `Fin 0x10000`, bytes are `Fin 256`.
* `uint` values are natural numbers reduced modulo `2 ^ w`, where `w` is the width
  of `uint` on the platform (32 or 64); `w` is a parameter of the timing functions.
* A worker loop `for { select { ... } }` is run on the list of the events it receives,
  in order; what it sends and the library calls it makes are recorded as actions.
-/

namespace Spectrum

/-! ## Constants (display.go) -/

def ScreenWidth : Nat := 256
def ScreenHeight : Nat := 192
def BytesPerLine : Nat := ScreenWidth / 8
def BytesPerLine_log2 : Nat := 5
def ScreenBorderX : Nat := 32
def ScreenBorderY : Nat := 24
def SCREEN_BASE_ADDR : Nat := 0x4000
def ATTR_BASE_ADDR : Nat := 0x5800

def PIXELS_PER_TSTATE : Nat := 2
def LINE_SCREEN : Nat := ScreenWidth / PIXELS_PER_TSTATE
def LINE_RIGHT_BORDER : Nat := 24
def LINE_RETRACE : Nat := 48
def LINE_LEFT_BORDER : Nat := 24
def TSTATES_PER_LINE : Nat :=
  LINE_RIGHT_BORDER + LINE_SCREEN + LINE_LEFT_BORDER + LINE_RETRACE
def FIRST_SCREEN_BYTE : Nat := 14336
def LINES_TOP : Nat := 64
def LINES_SCREEN : Nat := ScreenHeight
def LINES_BOTTOM : Nat := 56

/-- Modelled from the spec: the constant `TStatesPerFrame` is declared in a source
file that is not available (the spec calls it `TicksPerFrame`). It is the number of
T-states of one video frame: every line of the frame (top border, screen, bottom
border) takes `TSTATES_PER_LINE` T-states, which gives 69888. -/
def TStatesPerFrame : Nat := TSTATES_PER_LINE * (LINES_TOP + LINES_SCREEN + LINES_BOTTOM)

/-! ## Data model -/

/-- A Go `byte`. -/
abbrev Byte := Fin 256

/-- A Go `uint16`. -/
abbrev Address := Fin 0x10000

/-- A Go array `[n]α`: a value for every index below `n`. -/
@[ext]
structure GoArray (n : Nat) (α : Type) where
  get : Fin n → α

namespace GoArray

/-- The array whose elements all are `v` (Go zero-initialises arrays). -/
def fill {n : Nat} {α : Type} (v : α) : GoArray n α := ⟨fun _ => v⟩

/-- The read `a[i]` for an index of any size: out of range is a panic (`none`). -/
def get? {n : Nat} {α : Type} (a : GoArray n α) (i : Nat) : Option α :=
  if h : i < n then some (a.get ⟨i, h⟩) else none

/-- The assignment `a[i] = v` for an index known to be in range. -/
def set {n : Nat} {α : Type} (a : GoArray n α) (i : Fin n) (v : α) : GoArray n α :=
  ⟨fun j => if j = i then v else a.get j⟩

/-- The assignment `a[i] = v` for an index of any size: out of range is a panic. -/
def set? {n : Nat} {α : Type} (a : GoArray n α) (i : Nat) (v : α) :
    Option (GoArray n α) :=
  if h : i < n then some (a.set ⟨i, h⟩ v) else none

end GoArray

/-! ## The contention table (memory.go, `delay_table` and its `init`) -/

/-- The type of `var delay_table [TStatesPerFrame + 100]byte`. -/
abbrev DelayTable := GoArray (TStatesPerFrame + 100) Byte

/-- The body of the inner loop of `init`: the six assignments of one 16-pixel chunk. -/
def delay_init_body (tstate x : Nat) (tbl : DelayTable) : Option DelayTable := do
  let tstate_x := x / PIXELS_PER_TSTATE
  let tbl ← tbl.set? (tstate + tstate_x + 0) 6
  let tbl ← tbl.set? (tstate + tstate_x + 1) 5
  let tbl ← tbl.set? (tstate + tstate_x + 2) 4
  let tbl ← tbl.set? (tstate + tstate_x + 3) 3
  let tbl ← tbl.set? (tstate + tstate_x + 4) 2
  let tbl ← tbl.set? (tstate + tstate_x + 5) 1
  pure tbl

/-- The inner loop `for x := ...; x < ScreenWidth; x += 16`, entered with `x`. -/
def delay_init_x (tstate x : Nat) (tbl : DelayTable) : Option DelayTable :=
  if x < ScreenWidth then
    (delay_init_body tstate x tbl).bind (delay_init_x tstate (x + 16))
  else
    some tbl
termination_by ScreenWidth - x
decreasing_by omega

/-- The outer loop `for y := ...; y < ScreenHeight; y++`, entered with `y` and the
current value of the variable `tstate`. -/
def delay_init_y (tstate y : Nat) (tbl : DelayTable) : Option DelayTable :=
  if y < ScreenHeight then
    (delay_init_x tstate 0 tbl).bind (delay_init_y (tstate + TSTATES_PER_LINE) (y + 1))
  else
    some tbl
termination_by ScreenHeight - y
decreasing_by omega

/-- The function `init` of memory.go, run on the zero-initialised array: `none` if an
assignment falls outside the array. -/
def delay_table_init : Option DelayTable :=
  delay_init_y (FIRST_SCREEN_BYTE - 1) 0 (GoArray.fill 0)

/-- The package variable `delay_table` after package initialisation. -/
def delay_table : DelayTable := delay_table_init.getD (GoArray.fill 0)

/-! ## Machine state -/

/-- The CPU, as far as memory.go uses it: the T-state counter `tstates` (a `uint`). -/
structure Z80 where
  tstates : Nat
deriving DecidableEq, Repr

/-- A call received by the video-timing logic (the ULA). -/
inductive UlaCall where
  | screenBitmapWrite (address : Address) (oldValue newValue : Byte)
  | screenAttrWrite (address : Address) (oldValue newValue : Byte)
deriving DecidableEq, Repr

/-- Modelled from the spec: the methods `screenBitmapWrite` and `screenAttrWrite` of the
ULA are declared in a source file that is not available. The spec says that they are
notified "with the address and both old and new byte values"; a call is recorded, in
order, in the list of the calls the ULA has received. -/
structure ULA where
  calls : List UlaCall
deriving DecidableEq, Repr

/-- The struct `Memory`: the 64K array `data` (the field `speccy` is the pointer to the
machine that owns the memory, here the enclosing `Spectrum48k`). -/
@[ext]
structure Memory where
  data : GoArray 0x10000 Byte

/-- The machine reached through `memory.speccy`: its CPU, its ULA and the memory. -/
structure Spectrum48k where
  Cpu : Z80
  ula : ULA
  Memory : Memory

/-! ## Memory (memory.go) -/

/-- The loop of `Memory.reset`, entered with `i`. -/
def Memory.reset_loop (i : Nat) (memory : Memory) : Option Memory :=
  if i < 0x10000 then
    (memory.data.set? i 0).bind fun data => Memory.reset_loop (i + 1) { data := data }
  else
    some memory
termination_by 0x10000 - i
decreasing_by omega

/-- The method `Memory.reset`. -/
def Memory.reset (memory : Memory) : Option Memory :=
  Memory.reset_loop 0 memory

/-- The method `Memory.readByteInternal`. -/
def Memory.readByteInternal (memory : Memory) (address : Address) : Byte :=
  memory.data.get address

/-- The method `Memory.Read`. -/
def Memory.Read (memory : Memory) (address : Address) : Byte :=
  memory.data.get address

/-- The method `Memory.Write`. -/
def Memory.Write (memory : Memory) (address : Address) (value : Byte)
    (protectROM : Bool) : Memory :=
  if address.val ≥ 0x4000 ∨ ¬ protectROM then
    { data := memory.data.set address value }
  else
    memory

/-- The method `Memory.writeByteInternal`, on the machine `memory.speccy`. -/
def writeByteInternal (speccy : Spectrum48k) (address : Address) (b : Byte) :
    Spectrum48k :=
  let speccy : Spectrum48k :=
    if address.val ≥ SCREEN_BASE_ADDR ∧ address.val < ATTR_BASE_ADDR then
      { speccy with ula := ⟨speccy.ula.calls ++
          [UlaCall.screenBitmapWrite address (speccy.Memory.data.get address) b]⟩ }
    else if address.val ≥ ATTR_BASE_ADDR ∧ address.val < 0x5b00 then
      { speccy with ula := ⟨speccy.ula.calls ++
          [UlaCall.screenAttrWrite address (speccy.Memory.data.get address) b]⟩ }
    else
      speccy
  if address.val ≥ 0x4000 then
    { speccy with Memory := { data := speccy.Memory.data.set address b } }
  else
    speccy

/-- The method `Memory.Read`, seen on the whole machine: the byte returned and the
machine afterwards. -/
def Spectrum48k.Read (speccy : Spectrum48k) (address : Address) : Byte × Spectrum48k :=
  (speccy.Memory.Read address, speccy)

/-- The method `Memory.Write`, seen on the whole machine. -/
def Spectrum48k.Write (speccy : Spectrum48k) (address : Address) (value : Byte)
    (protectROM : Bool) : Spectrum48k :=
  { speccy with Memory := speccy.Memory.Write address value protectROM }

/-! ## Contention (memory.go) -/

/-- The function `contendMemory`; `w` is the width of `uint`. The result is `none` when
the index into `delay_table` is out of range. -/
def contendMemory (w : Nat) (z80 : Z80) (address : Address) (time : Nat) : Option Z80 :=
  let tstates := z80.tstates
  let tstates : Option Nat :=
    if address.val &&& 0xc000 = 0x4000 then
      (delay_table.get? tstates).map fun d => (tstates + d.val) % 2 ^ w
    else
      some tstates
  tstates.map fun tstates => { tstates := (tstates + time) % 2 ^ w }

/-- The loop of `contendMemory_loop` for a contended address, entered with `i` and the
local variable `tstates`. -/
def contendMemory_loop_iter (w : Nat) (time count : Nat) (i : Nat) (tstates : Nat) :
    Option Nat :=
  if i < count then
    (delay_table.get? tstates).bind fun d =>
      contendMemory_loop_iter w time count (i + 1)
        (((tstates + d.val) % 2 ^ w + time) % 2 ^ w)
  else
    some tstates
termination_by count - i
decreasing_by omega

/-- The function `contendMemory_loop`. -/
def contendMemory_loop (w : Nat) (z80 : Z80) (address : Address) (time count : Nat) :
    Option Z80 :=
  let tstates := z80.tstates
  let tstates : Option Nat :=
    if address.val &&& 0xc000 = 0x4000 then
      contendMemory_loop_iter w time count 0 tstates
    else
      some ((tstates + (time * count) % 2 ^ w) % 2 ^ w)
  tstates.map fun tstates => { tstates := tstates }

/-- The method `Memory.readByte`: the byte read and the machine afterwards. -/
def readByte (w : Nat) (speccy : Spectrum48k) (address : Address) :
    Option (Byte × Spectrum48k) :=
  (contendMemory w speccy.Cpu address 3).map fun cpu =>
    (speccy.Memory.readByteInternal address, { speccy with Cpu := cpu })

/-- The method `Memory.writeByte`. -/
def writeByte (w : Nat) (speccy : Spectrum48k) (address : Address) (b : Byte) :
    Option Spectrum48k :=
  (contendMemory w speccy.Cpu address 3).map fun cpu =>
    writeByteInternal { speccy with Cpu := cpu } address b

/-- The method `Memory.contendRead`. -/
def contendRead (w : Nat) (speccy : Spectrum48k) (address : Address) (time : Nat) :
    Option Spectrum48k :=
  (contendMemory w speccy.Cpu address time).map fun cpu => { speccy with Cpu := cpu }

/-- The method `Memory.contendReadNoMreq`. -/
def contendReadNoMreq (w : Nat) (speccy : Spectrum48k) (address : Address) (time : Nat) :
    Option Spectrum48k :=
  (contendMemory w speccy.Cpu address time).map fun cpu => { speccy with Cpu := cpu }

/-- The method `Memory.contendReadNoMreq_loop`. -/
def contendReadNoMreq_loop (w : Nat) (speccy : Spectrum48k) (address : Address)
    (time count : Nat) : Option Spectrum48k :=
  (contendMemory_loop w speccy.Cpu address time count).map fun cpu =>
    { speccy with Cpu := cpu }

/-- The method `Memory.contendWriteNoMreq`. -/
def contendWriteNoMreq (w : Nat) (speccy : Spectrum48k) (address : Address) (time : Nat) :
    Option Spectrum48k :=
  (contendMemory w speccy.Cpu address time).map fun cpu => { speccy with Cpu := cpu }

/-- The method `Memory.contendWriteNoMreq_loop`. -/
def contendWriteNoMreq_loop (w : Nat) (speccy : Spectrum48k) (address : Address)
    (time count : Nat) : Option Spectrum48k :=
  (contendMemory_loop w speccy.Cpu address time count).map fun cpu =>
    { speccy with Cpu := cpu }

/-- Executing `contendMemory(z80, address, time)` `count` times in sequence. -/
def contendMemory_times (w : Nat) (address : Address) (time : Nat) :
    Nat → Z80 → Option Z80
  | 0, z80 => some z80
  | count + 1, z80 =>
    (contendMemory w z80 address time).bind (contendMemory_times w address time count)

/-! ## Screen addressing (display.go) -/

/-- The function `screenAddr_to_xy`; the operations are those of `uint16`, the results
are converted to `uint8`. -/
def screenAddr_to_xy (screenAddr : Address) : Nat × Nat :=
  let x := (((screenAddr.val &&& 0x001f) <<< 3) % 0x10000) % 0x100
  let y := (((screenAddr.val &&& 0x0700) >>> 8) ||| ((screenAddr.val &&& 0x00e0) >>> 2)
    ||| ((screenAddr.val &&& 0x1800) >>> 5)) % 0x100
  (x, y)

/-- The function `xy_to_screenAddr` on `uint8` arguments (`x, y < 256`); the operations
are those of `uint` (no intermediate value reaches `2 ^ 16`), the result is converted to
`uint16`. -/
def xy_to_screenAddr (x y : Nat) : Address :=
  let yy := y
  let addr_y := SCREEN_BASE_ADDR ||| 0x800 * (yy >>> 6) |||
    BytesPerLine * ((yy &&& 0x38) >>> 3) ||| ((yy &&& 0x07) <<< 8)
  Fin.ofNat (addr_y ||| (x >>> 3))

/-- The type of `var screenline_start_tstates [ScreenHeight]uint`. -/
abbrev ScreenlineTable := GoArray ScreenHeight Nat

/-- The loop of the function `init` of display.go, entered with `y` (a `uint8`). The
index is computed in `uint16`, the value in `uint` (it stays below `2 ^ 16`). -/
def screenline_init_loop (y : Nat) (tbl : ScreenlineTable) : Option ScreenlineTable :=
  if y < ScreenHeight then
    let addr := xy_to_screenAddr 0 y
    (tbl.set? (((addr.val + 0x10000 - SCREEN_BASE_ADDR) % 0x10000) / BytesPerLine)
      (FIRST_SCREEN_BYTE + y * TSTATES_PER_LINE)).bind
      (screenline_init_loop ((y + 1) % 0x100))
  else
    some tbl
termination_by ScreenHeight - y
decreasing_by
  simp only [ScreenHeight] at *
  omega

/-- The function `init` of display.go, run on the zero-initialised array. -/
def screenline_start_tstates_init : Option ScreenlineTable :=
  screenline_init_loop 0 (GoArray.fill 0)

/-- The package variable `screenline_start_tstates` after package initialisation. -/
def screenline_start_tstates : ScreenlineTable :=
  screenline_start_tstates_init.getD (GoArray.fill 0)

/-! ## Definitions used in statements and proofs -/


/-- The index of `screenline_start_tstates` that `init` assigns for the line `y`. -/
def screenline_index (y : Nat) : Nat :=
  ((xy_to_screenAddr 0 y).val + 0x10000 - SCREEN_BASE_ADDR) % 0x10000 / BytesPerLine

/-- Checks `p` on the `2 ^ k` numbers from `lo` on, by halving. -/
def checkPow (p : Nat → Bool) : Nat → Nat → Bool
  | 0, lo => p lo
  | k + 1, lo => checkPow p k lo && checkPow p k (lo + 2 ^ k)


/-- One call of the sequence of timed accesses of an instruction. -/
inductive ContendCall where
  | single (address : Address) (time : Nat)
  | loop (address : Address) (time count : Nat)

/-- The effect of a call on the CPU. -/
def ContendCall.run (w : Nat) : ContendCall → Z80 → Option Z80
  | .single address time, z80 => contendMemory w z80 address time
  | .loop address time count, z80 => contendMemory_loop w z80 address time count

/-- The base cost of a call: `time`, for the loop `time` for each of the `count` accesses. -/
def ContendCall.cost : ContendCall → Nat
  | .single _ time => time
  | .loop _ time count => time * count

/-- Executing a sequence of calls, aborting at the first call that aborts. -/
def runCalls (w : Nat) : List ContendCall → Z80 → Option Z80
  | [], z80 => some z80
  | c :: cs, z80 => (c.run w z80).bind (runCalls w cs)

end Spectrum

/-! ## prettytest (prettytest.go) -/

namespace PrettyTest

def LABEL_FAIL : String := "\x1b[31;1mFAIL\x1b[0m"
def LABEL_PASS : String := "\x1b[32;1mOK\x1b[0m"
def LABEL_PENDING : String := "\x1b[33;1mPENDING\x1b[0m"
def LABEL_DRY : String := "\x1b[33;1mDRY\x1b[0m"

def STATUS_PASS : Nat := 0
def STATUS_FAIL : Nat := 1
def STATUS_PENDING : Nat := 2

/-- The struct `callerInfo`. -/
structure callerInfo where
  name : String
  fn : String
  line : Int
deriving DecidableEq, Repr

/-- A value of type `interface{}` passed to an assertion; two values are equal (`==`)
when they have the same dynamic type and the same value. -/
inductive Value where
  | nil
  | bool (b : Bool)
  | int (n : Int)
  | string (s : String)
deriving DecidableEq, Repr

/-- A call of `Errorf` on the `testing.T` of the standard library (it marks the Go test
as failed): the two forms of message that prettytest.go produces. -/
inductive Errorf where
  | expected (exp act : Value) (fn : String) (line : Int)
  | custom (msg : String) (value : Option Value) (fn : String) (line : Int)
deriving DecidableEq, Repr

/-- The struct `T`; the field `T *testing.T`, here `testingT`, is the list of the
`Errorf` calls made on the `testing.T`. -/
structure T where
  testingT : List Errorf
  Status : Nat
  LastStatus : Nat
  Dry : Bool
  callerInfo : callerInfo
deriving DecidableEq, Repr

/-- The method `fail`. -/
def T.fail (assertion : T) (exp act : Value) (info : PrettyTest.callerInfo) : T :=
  let assertion : T :=
    if !assertion.Dry then
      { assertion with testingT := assertion.testingT ++ [Errorf.expected exp act info.fn info.line] }
    else assertion
  { assertion with Status := STATUS_FAIL, LastStatus := STATUS_FAIL }

/-- The method `failWithCustomMsg`; the message is kept as its format and its argument. -/
def T.failWithCustomMsg (assertion : T) (msg : String) (value : Option Value)
    (info : PrettyTest.callerInfo) : T :=
  let assertion : T :=
    if !assertion.Dry then
      { assertion with testingT := assertion.testingT ++ [Errorf.custom msg value info.fn info.line] }
    else assertion
  { assertion with Status := STATUS_FAIL, LastStatus := STATUS_FAIL }

/-- The method `setup`; `caller` is what `newCallerInfo(3)` returns, the position of the
caller of the assertion as the Go runtime reports it. -/
def T.setup (assertion : T) (caller : PrettyTest.callerInfo) : T :=
  { assertion with LastStatus := STATUS_PASS, callerInfo := caller }

/-- The method `Equal`. -/
def T.Equal (assertion : T) (caller : PrettyTest.callerInfo) (exp act : Value) : T :=
  let assertion := assertion.setup caller
  if exp ≠ act then assertion.fail exp act assertion.callerInfo else assertion

/-- The method `True`. -/
def T.True (assertion : T) (caller : PrettyTest.callerInfo) (value : Bool) : T :=
  let assertion := assertion.setup caller
  if !value then
    assertion.fail (Value.string "true") (Value.string "false") assertion.callerInfo
  else assertion

/-- The method `False`. -/
def T.False (assertion : T) (caller : PrettyTest.callerInfo) (value : Bool) : T :=
  let assertion := assertion.setup caller
  if value then
    assertion.fail (Value.string "false") (Value.string "true") assertion.callerInfo
  else assertion

/-- The method `Path`; `stat path` tells whether `os.Stat(path)` returns without error. -/
def T.Path (assertion : T) (stat : String → Bool) (caller : PrettyTest.callerInfo) (path : String) : T :=
  let assertion := assertion.setup caller
  if !stat path then
    assertion.failWithCustomMsg "Path %s doesn't exist" (some (Value.string path))
      assertion.callerInfo
  else assertion

/-- The method `Nil`. -/
def T.Nil (assertion : T) (caller : PrettyTest.callerInfo) (value : Value) : T :=
  let assertion := assertion.setup caller
  if value ≠ Value.nil then
    assertion.failWithCustomMsg "Expected nil but got %s" (some value) assertion.callerInfo
  else assertion

/-- The method `NotNil`. -/
def T.NotNil (assertion : T) (caller : PrettyTest.callerInfo) (value : Value) : T :=
  let assertion := assertion.setup caller
  if value = Value.nil then
    assertion.failWithCustomMsg "Expected not nil value but got %s" (some value)
      assertion.callerInfo
  else assertion

/-- The method `Pending`. -/
def T.Pending (assertion : T) (caller : PrettyTest.callerInfo) : T :=
  let assertion := assertion.setup caller
  { assertion with Status := STATUS_PENDING }

/-- The method `Failed`. -/
def T.Failed (assertion : T) : Bool :=
  assertion.LastStatus == STATUS_FAIL

/-- The method `TestFailed`. -/
def T.TestFailed (assertion : T) : Bool :=
  assertion.Status == STATUS_FAIL

/-- The value `&T{t, STATUS_PASS, STATUS_PASS, false, &callerInfo{"", "", 0}}` that `Run`
creates, on a `testing.T` that has received the calls `t`. -/
def T.fresh (t : List Errorf) : T :=
  { testingT := t, Status := STATUS_PASS, LastStatus := STATUS_PASS, Dry := false,
    callerInfo := { name := "", fn := "", line := 0 } }

/-- An assertion call made by a test function, with its arguments. -/
inductive Call where
  | Equal (exp act : Value)
  | True (value : Bool)
  | False (value : Bool)
  | Path (path : String)
  | Nil (value : Value)
  | NotNil (value : Value)
  | Pending
deriving DecidableEq, Repr

/-- Performing a call on a `T`. -/
def Call.apply (stat : String → Bool) (caller : PrettyTest.callerInfo) : Call → T → T
  | .Equal exp act, t => t.Equal caller exp act
  | .True value, t => t.True caller value
  | .False value, t => t.False caller value
  | .Path path, t => t.Path stat caller path
  | .Nil value, t => t.Nil caller value
  | .NotNil value, t => t.NotNil caller value
  | .Pending, t => t.Pending caller

/-- The condition of the source under which the call reports a failure. -/
def Call.fails (stat : String → Bool) : Call → Bool
  | .Equal exp act => decide (exp ≠ act)
  | .True value => !value
  | .False value => value
  | .Path path => !stat path
  | .Nil value => decide (value ≠ Value.nil)
  | .NotNil value => decide (value = Value.nil)
  | .Pending => false

/-- Performing a sequence of calls, each with the caller position the runtime reports. -/
def runCalls (stat : String → Bool) : List (Call × callerInfo) → T → T
  | [], t => t
  | (c, caller) :: cs, t => runCalls stat cs (c.apply stat caller t)

/-- A function passed to `Run`: its name, as `runtime.FuncForPC(...).Name()` gives it,
and its effect on the `T` it receives. -/
structure TestFunc where
  name : String
  body : T → T

/-- Whether the list of characters `sub` occurs in `s`. -/
def occursIn (sub : List Char) : List Char → Bool
  | [] => sub.isEmpty
  | c :: cs => sub.isPrefixOf (c :: cs) || occursIn sub cs

/-- The call `regexp.MatchString(".*\\." + hook + ".*$", funcName)` for a literal `hook`:
the pattern is not anchored at the start, so it matches when `.hook` occurs in the
name. -/
def MatchString (hook : String) (funcName : String) : Bool :=
  occursIn ('.' :: hook.toList) funcName.toList

/-- The loop of `getFuncId`, entered at index `i` with the current `id`. -/
def getFuncId_loop (hook : String) : List TestFunc → Nat → Int → Int
  | [], _, id => id
  | test :: tests, i, id =>
    getFuncId_loop hook tests (i + 1) (if MatchString hook test.name then (i : Int) else id)

/-- The function `getFuncId` for the pattern `".*\\." + hook + ".*$"`: the index of the
last function whose name matches, or -1. -/
def getFuncId (hook : String) (tests : List TestFunc) : Int :=
  getFuncId_loop hook tests 0 (-1)

/-- What `Run` does that can be observed: it invokes one of its arguments, or prints a
line (the header with the name of the caller, or a label and a name). -/
inductive Event where
  | header (callerName : String)
  | invoke (index : Nat)
  | print (label : String) (name : String)
deriving DecidableEq, Repr

/-- The state of `Run`: the `Errorf` calls received by the `testing.T` and the events so
far. -/
structure RunState where
  t : List Errorf
  events : List Event

/-- The call `tests[id](assertions)`: `none` when the index is out of range. -/
def invoke (tests : List TestFunc) (id : Int) (assertions : T) (events : List Event) :
    Option (T × List Event) :=
  if id < 0 then none
  else
    match tests.get? id.toNat with
    | some f => some (f.body assertions, events ++ [Event.invoke id.toNat])
    | none => none

/-- The line printed at the end of an iteration of `Run`. -/
def report (assertions : T) : List Event :=
  if !assertions.Dry then
    if assertions.Status = STATUS_FAIL then
      [Event.print LABEL_FAIL assertions.callerInfo.name]
    else if assertions.Status = STATUS_PASS then
      [Event.print LABEL_PASS assertions.callerInfo.name]
    else if assertions.Status = STATUS_PENDING then
      [Event.print LABEL_PENDING assertions.callerInfo.name]
    else []
  else
    [Event.print LABEL_DRY assertions.callerInfo.name]

/-- The loop `for i, test := range tests` of `Run`, entered at index `i` with the
functions `rest` still to visit. -/
def Run_loop (tests : List TestFunc)
    (setupFuncId teardownFuncId beforeAllFuncId afterAllFuncId : Int) :
    List TestFunc → Nat → RunState → Option RunState
  | [], _, st => some st
  | test :: rest, i, st =>
    let next := Run_loop tests setupFuncId teardownFuncId beforeAllFuncId afterAllFuncId
      rest (i + 1)
    let assertions := T.fresh st.t
    if (i : Int) = beforeAllFuncId then
      (invoke tests beforeAllFuncId assertions st.events).bind fun (a, ev) =>
        next { t := a.testingT, events := ev }
    else if (i : Int) = afterAllFuncId then
      next st
    else if (i : Int) = setupFuncId ∨ (i : Int) = teardownFuncId then
      next st
    else
      (if setupFuncId ≥ 0 then invoke tests setupFuncId assertions st.events
        else some (assertions, st.events)).bind fun (a, ev) =>
      let a := test.body a
      let ev := ev ++ [Event.invoke i]
      (if teardownFuncId ≥ 0 then invoke tests teardownFuncId a ev
        else some (a, ev)).bind fun (a, ev) =>
      next { t := a.testingT, events := ev ++ report a }

/-- The function `Run`; `callerName` is the name of the caller as the runtime reports
it, `t` the calls the `testing.T` has received. -/
def Run (callerName : String) (t : List Errorf) (tests : List TestFunc) :
    Option RunState :=
  let setupFuncId := getFuncId "before" tests
  let teardownFuncId := getFuncId "after" tests
  let beforeAllFuncId := getFuncId "beforeAll" tests
  let afterAllFuncId := getFuncId "afterAll" tests
  (Run_loop tests setupFuncId teardownFuncId beforeAllFuncId afterAllFuncId tests 0
    { t := t, events := [Event.header callerName] }).bind fun st =>
  if afterAllFuncId ≥ 0 then
    (invoke tests afterAllFuncId (T.fresh st.t) st.events).map fun (a, ev) =>
      { t := a.testingT, events := ev }
  else some st

/-- A function passed to `Run` whose body makes no assertion. -/
def emptyTest (name : String) : TestFunc :=
  { name := name, body := fun t => t }

end PrettyTest

/-! ## The front-end workers (gospeccy.go) -/

namespace Frontend

/-- The struct `sdl.Rect`: `X, Y int16` and `W, H uint16`. -/
structure Rect where
  X : Int
  Y : Int
  W : Nat
  H : Nat
deriving DecidableEq, Repr

/-- A value of type `SDLSurfaceAccessor`, identified by a number. -/
abbrev Surface := Nat

/-- The conversion to `int16` of an integer (wrap-around). -/
def toInt16 (n : Int) : Int := (n + 32768) % 65536 - 32768

/-- The struct `SDLRenderer`, without its channels and animations, which are the sources
of the events of `loop`. -/
structure SDLRenderer where
  consoleX : Int
  consoleY : Int
  consoleW : Int
  consoleH : Int
  consoleH_2 : Int
  width : Int
  height : Int
  appSurface : Surface
  speccySurface : Surface
  cliSurface : Surface
  toggling : Bool
deriving DecidableEq, Repr

/-- What the two workers read and write: the global renderer `r`, the pause flag of the
global console `cli` (`cli.Paused()` returns what `cli.Pause` has set) and the flag
`app.Verbose`. -/
structure World where
  r : SDLRenderer
  cliPaused : Bool
  Verbose : Bool
deriving DecidableEq, Repr

/-- The argument of `cli.PutReadline`. -/
inductive ReadlineCmd where
  | HISTORY_PREV
  | HISTORY_NEXT
  | CURSOR_LEFT
  | CURSOR_RIGHT
deriving DecidableEq, Repr

/-- What a worker does to the outside: a send on a channel or a call of a library. -/
inductive Action where
  | pauseAck
  | terminateAck
  | PrintfMsg (format : String)
  | Free (surface : Surface)
  | done
  | Blit (dst : Surface) (dstrect : Option Rect) (src : Surface) (srcrect : Option Rect)
  | UpdateRect (surface : Surface) (x y : Int) (w h : Nat)
  | Flip (surface : Surface)
  | RequestExit
  | cliPause (paused : Bool)
  | slideDownStart
  | slideUpStart
  | scroll (up : Bool)
  | PutReadline (cmd : ReadlineCmd)
  | PutUnicode (unicode : Nat)
  | KeyDown (key : Nat)
  | KeyUp (key : Nat)
deriving DecidableEq, Repr

/-- The method `blitAll`. -/
def SDLRenderer.blitAll (r : SDLRenderer) : List Action :=
  [Action.Blit r.appSurface none r.speccySurface none,
    Action.Blit r.appSurface (some ⟨0, toInt16 r.consoleY, 0, 0⟩) r.cliSurface none,
    Action.Flip r.appSurface]

/-- The loop over `speccyRects` of `render` when the console is paused. -/
def SDLRenderer.render_paused (r : SDLRenderer) : List Rect → List Action
  | [] => []
  | rect :: rects =>
    [Action.Blit r.appSurface (some rect) r.speccySurface (some rect),
      Action.UpdateRect r.appSurface rect.X rect.Y rect.W rect.H] ++ r.render_paused rects

/-- The loop over `speccyRects` of `render` when the console is shown. -/
def SDLRenderer.render_speccy (r : SDLRenderer) : List Rect → List Action
  | [] => []
  | rect :: rects =>
    let x := rect.X
    let y := toInt16 (rect.Y - toInt16 r.consoleY)
    let w := rect.W
    let h := rect.H
    [Action.Blit r.appSurface (some rect) r.speccySurface (some rect),
      Action.Blit r.appSurface (some ⟨x, toInt16 (y + toInt16 r.consoleY), 0, 0⟩) r.cliSurface
        (some ⟨x, y, w, h⟩)] ++ r.render_speccy rects

/-- The loop over `cliRects` of `render`. -/
def SDLRenderer.render_cli (r : SDLRenderer) : List Rect → List Action
  | [] => []
  | rect :: rects =>
    let x := rect.X
    let y := toInt16 (rect.Y + toInt16 r.consoleY)
    let w := rect.W
    let h := rect.H
    [Action.Blit r.appSurface (some ⟨x, y, 0, 0⟩) r.speccySurface (some ⟨x, y, w, h⟩),
      Action.Blit r.appSurface (some ⟨rect.X, toInt16 (rect.Y + toInt16 r.consoleY), 0, 0⟩)
        r.cliSurface (some rect)] ++ r.render_cli rects

/-- The method `render`. -/
def SDLRenderer.render (r : SDLRenderer) (cliPaused : Bool) (speccyRects cliRects : List Rect) :
    List Action :=
  if !r.toggling then
    if cliPaused then
      r.render_paused speccyRects
    else
      r.render_speccy speccyRects ++ r.render_cli cliRects ++ [Action.Flip r.appSurface]
  else
    r.blitAll

/-- What the `select` of `SDLRenderer.loop` receives; the value of an animation is given
after its conversion by `int16(value)`. -/
inductive RendererEvent where
  | Pause
  | Terminate
  | slideDownValue (value : Int)
  | slideUpValue (value : Int)
  | slideDownFinished
  | slideUpFinished
  | cliSurfaceCh (surface : Surface)
  | speccySurfaceCh (surface : Surface)
  | appSurfaceCh (surface : Surface)
  | cliRects (rects : List Rect)
  | speccyRects (rects : List Rect)
deriving DecidableEq, Repr

/-- The outcome of one pass through a `select`: the world, what was done, and whether the
function has returned. -/
structure Step where
  world : World
  actions : List Action
  returned : Bool
deriving DecidableEq, Repr

/-- The body of the `select` of `SDLRenderer.loop` for the event received. -/
def SDLRenderer.handle (e : RendererEvent) (world : World) : Step :=
  let r := world.r
  match e with
  | .Pause => ⟨world, [Action.pauseAck], false⟩
  | .Terminate =>
    ⟨world,
      (if world.Verbose then [Action.PrintfMsg "Frontend SDL renderer event loop: exit"]
        else []) ++ [Action.terminateAck], true⟩
  | .slideDownValue value =>
    let r := { r with consoleY := toInt16 (toInt16 r.consoleH_2 + value) }
    ⟨{ world with r := r }, r.render world.cliPaused [] [], false⟩
  | .slideUpValue value =>
    let r := { r with consoleY := toInt16 (toInt16 r.consoleH_2 + value) }
    ⟨{ world with r := r }, r.render world.cliPaused [] [], false⟩
  | .slideDownFinished => ⟨{ world with r := { r with toggling := false } }, [], false⟩
  | .slideUpFinished => ⟨{ world with r := { r with toggling := false } }, [], false⟩
  | .cliSurfaceCh surface =>
    let r' := { r with cliSurface := surface }
    ⟨{ world with r := r' }, [Action.Free r.cliSurface, Action.done] ++ r'.blitAll, false⟩
  | .speccySurfaceCh surface =>
    let r' := { r with speccySurface := surface }
    ⟨{ world with r := r' }, [Action.Free r.speccySurface, Action.done] ++ r'.blitAll, false⟩
  | .appSurfaceCh surface =>
    let r' := { r with appSurface := surface }
    ⟨{ world with r := r' }, [Action.Free r.appSurface, Action.done] ++ r'.blitAll, false⟩
  | .cliRects rects => ⟨world, r.render world.cliPaused [] rects, false⟩
  | .speccyRects rects => ⟨world, r.render world.cliPaused rects [], false⟩

/-- The loop `for { select { ... } }` on the events received, in order: it stops when the
body returns; with no event left it waits. -/
def eventLoop {ε : Type} (handle : ε → World → Step) : List ε → World → Step
  | [], world => ⟨world, [], false⟩
  | e :: es, world =>
    let s := handle e world
    if s.returned then s
    else
      let rest := eventLoop handle es s.world
      ⟨rest.world, s.actions ++ rest.actions, rest.returned⟩

/-- The method `SDLRenderer.loop`, on the events it receives. -/
def SDLRenderer.loop (events : List RendererEvent) (world : World) : Step :=
  eventLoop SDLRenderer.handle events world

/-- The constant `sdl.KEYDOWN` of SDL. -/
def KEYDOWN : Nat := 2

/-- The constant `sdl.KEYUP` of SDL. -/
def KEYUP : Nat := 3

/-- The struct `sdl.KeyboardEvent` with its `Keysym`, and `keyName`, the result of
`sdl.GetKeyName(sdl.Key(e.Keysym.Sym))`; `Type_` is the field `Type`, `Pad0` is an
array of one byte. -/
structure KeyboardEvent where
  Type_ : Nat
  Which : Nat
  State : Nat
  Pad0 : Nat
  Scancode : Nat
  Sym : Nat
  Mod : Nat
  Unicode : Nat
  keyName : String
deriving DecidableEq, Repr

/-- A value received from `sdl.Events`. -/
inductive SdlEvent where
  | QuitEvent
  | KeyboardEvent (e : KeyboardEvent)
  | other
deriving DecidableEq, Repr

/-- What the `select` of `sdlEventLoop` receives. -/
inductive LoopEvent where
  | Pause
  | Terminate
  | sdl (event : SdlEvent)
deriving DecidableEq, Repr

/-- The calls `speccy.Keyboard.KeyDown(sequence[i])` in normal order. -/
def keysDown (sequence : List Nat) : List Action := sequence.map Action.KeyDown

/-- The calls `speccy.Keyboard.KeyUp(sequence[i])` in reverse order. -/
def keysUp (sequence : List Nat) : List Action := sequence.reverse.map Action.KeyUp

/-- The messages printed for a key when `verboseKeyboard` is set (formats only). -/
def verboseKeyboardMsgs : List Action :=
  [Action.PrintfMsg "\n", Action.PrintfMsg "%v: %v", Action.PrintfMsg "%04x ",
    Action.PrintfMsg "%02x ", Action.PrintfMsg "\n",
    Action.PrintfMsg "Type: %02x Which: %02x State: %02x Pad: %02x\n",
    Action.PrintfMsg "Scancode: %02x Sym: %08x Mod: %04x Unicode: %04x\n"]

/-- The case of the key "f10" of `sdlEventLoop`: the console is toggled unless it is
being toggled. -/
def handleKey_f10 (world : World) : World × List Action :=
  if !world.r.toggling then
    let paused := !world.cliPaused
    ({ world with cliPaused := paused, r := { world.r with toggling := true } },
      [Action.cliPause paused] ++
        (if paused then [Action.slideDownStart] else [Action.slideUpStart]))
  else
    ({ world with r := { world.r with toggling := true } }, [])

/-- The keys of `sdlEventLoop` that go to the console (`!cli.Paused()`). -/
def handleKey_console (e : KeyboardEvent) : List Action :=
  if e.keyName = "page up" ∧ e.Type_ = KEYDOWN then [Action.scroll true]
  else if e.keyName = "page down" ∧ e.Type_ = KEYDOWN then [Action.scroll false]
  else if e.keyName = "up" ∧ e.Type_ = KEYDOWN then
    [Action.PutReadline ReadlineCmd.HISTORY_PREV]
  else if e.keyName = "down" ∧ e.Type_ = KEYDOWN then
    [Action.PutReadline ReadlineCmd.HISTORY_NEXT]
  else if e.keyName = "left" ∧ e.Type_ = KEYDOWN then
    [Action.PutReadline ReadlineCmd.CURSOR_LEFT]
  else if e.keyName = "right" ∧ e.Type_ = KEYDOWN then
    [Action.PutReadline ReadlineCmd.CURSOR_RIGHT]
  else if e.Unicode > 0 then [Action.PutUnicode e.Unicode]
  else []

/-- The keys of `sdlEventLoop` that go to the emulated keyboard; `SDL_KeyMap` is the map
`spectrum.SDL_KeyMap`. -/
def handleKey_spectrum (SDL_KeyMap : String → Option (List Nat)) (e : KeyboardEvent) :
    List Action :=
  match SDL_KeyMap e.keyName with
  | some sequence =>
    if e.Type_ = KEYDOWN then keysDown sequence
    else if e.Type_ = KEYUP then keysUp sequence
    else []
  | none => []

/-- The case `sdl.KeyboardEvent` of `sdlEventLoop`. -/
def handleKey (SDL_KeyMap : String → Option (List Nat)) (verboseKeyboard : Bool)
    (e : KeyboardEvent) (world : World) : World × List Action :=
  let msgs := if verboseKeyboard then verboseKeyboardMsgs else []
  if e.keyName = "escape" ∧ e.Type_ = KEYDOWN then
    (world, msgs ++
      (if world.Verbose then [Action.PrintfMsg "escape key -> request[exit the application]"]
        else []) ++ [Action.RequestExit])
  else if e.keyName = "f10" ∧ e.Type_ = KEYDOWN then
    ((handleKey_f10 world).1, msgs ++
      (if world.Verbose then [Action.PrintfMsg "f10 key -> toggle console"] else []) ++
      (handleKey_f10 world).2)
  else if !world.cliPaused then
    (world, msgs ++ handleKey_console e)
  else
    (world, msgs ++ handleKey_spectrum SDL_KeyMap e)

/-- The body of the `select` of `sdlEventLoop` for the event received. -/
def sdlEventLoop_handle (SDL_KeyMap : String → Option (List Nat)) (verboseKeyboard : Bool)
    (e : LoopEvent) (world : World) : Step :=
  match e with
  | .Pause => ⟨world, [Action.pauseAck], false⟩
  | .Terminate =>
    ⟨world,
      (if world.Verbose then [Action.PrintfMsg "SDL event loop: exit"] else []) ++
        [Action.terminateAck], true⟩
  | .sdl SdlEvent.QuitEvent =>
    ⟨world,
      (if world.Verbose then [Action.PrintfMsg "SDL quit -> request[exit the application]"]
        else []) ++ [Action.RequestExit], false⟩
  | .sdl (SdlEvent.KeyboardEvent k) =>
    ⟨(handleKey SDL_KeyMap verboseKeyboard k world).1,
      (handleKey SDL_KeyMap verboseKeyboard k world).2, false⟩
  | .sdl SdlEvent.other => ⟨world, [], false⟩

/-- The function `sdlEventLoop`, on the events it receives. -/
def sdlEventLoop (SDL_KeyMap : String → Option (List Nat)) (verboseKeyboard : Bool)
    (events : List LoopEvent) (world : World) : Step :=
  eventLoop (sdlEventLoop_handle SDL_KeyMap verboseKeyboard) events world

/-- Whether an action is an acknowledgement on the Pause or Terminate channel. -/
def Action.isAck : Action → Bool
  | .pauseAck => true
  | .terminateAck => true
  | _ => false

/-- A body that returns exactly on the event `term`, leaves the world as it is and
acknowledges exactly then. -/
structure Terminal {ε : Type} (handle : ε → World → Step) (term : ε) : Prop where
  returns : ∀ world, (handle term world).returned = true
  keeps : ∀ world, (handle term world).world = world
  one_ack : ∀ world, (handle term world).actions.count Action.terminateAck = 1
  goes_on : ∀ e world, e ≠ term → (handle e world).returned = false
  no_ack : ∀ e world, e ≠ term → (handle e world).actions.count Action.terminateAck = 0

/-- A world to run the loops on: the console hidden below a window of 640 by 480. -/
def world0 : World :=
  { r := { consoleX := 0, consoleY := 480, consoleW := 0, consoleH := 0, consoleH_2 := 240,
           width := 640, height := 480, appSurface := 0, speccySurface := 1, cliSurface := 2,
           toggling := false },
    cliPaused := true, Verbose := false }

end Frontend

namespace Spectrum

/-! ## Auxiliary facts -/

theorem TStatesPerFrame_eq : TStatesPerFrame = 69888 := by decide
theorem TSTATES_PER_LINE_eq : TSTATES_PER_LINE = 224 := by decide

namespace GoArray
variable {n : Nat} {α : Type}

theorem get_set (a : GoArray n α) (i j : Fin n) (v : α) :
    (a.set i v).get j = if j = i then v else a.get j := rfl

theorem get?_of_lt (a : GoArray n α) {i : Nat} (h : i < n) :
    a.get? i = some (a.get ⟨i, h⟩) := by
  simp [get?, h]

theorem get?_of_le (a : GoArray n α) {i : Nat} (h : n ≤ i) : a.get? i = none := by
  simp [get?, Nat.not_lt.mpr h]

theorem set?_of_lt (a : GoArray n α) {i : Nat} (h : i < n) (v : α) :
    a.set? i v = some (a.set ⟨i, h⟩ v) := by
  simp [set?, h]

end GoArray

/-- One chunk of `init`: the six slots from `tstate + x / 2` receive 6,5,4,3,2,1 and
no other slot changes. -/
theorem delay_init_body_spec (tstate x : Nat) (tbl : DelayTable)
    (h : tstate + x / 2 + 5 < TStatesPerFrame + 100) :
    ∃ tbl', delay_init_body tstate x tbl = some tbl' ∧
      ∀ t : Fin (TStatesPerFrame + 100),
        (tstate + x / 2 ≤ t.val → t.val < tstate + x / 2 + 6 →
          (tbl'.get t).val = 6 - (t.val - (tstate + x / 2))) ∧
        (¬ (tstate + x / 2 ≤ t.val ∧ t.val < tstate + x / 2 + 6) →
          tbl'.get t = tbl.get t) := by
  have h0 : tstate + x / 2 + 0 < TStatesPerFrame + 100 := by omega
  have h1 : tstate + x / 2 + 1 < TStatesPerFrame + 100 := by omega
  have h2 : tstate + x / 2 + 2 < TStatesPerFrame + 100 := by omega
  have h3 : tstate + x / 2 + 3 < TStatesPerFrame + 100 := by omega
  have h4 : tstate + x / 2 + 4 < TStatesPerFrame + 100 := by omega
  have e : delay_init_body tstate x tbl = some
      ((((((tbl.set ⟨_, h0⟩ 6).set ⟨_, h1⟩ 5).set ⟨_, h2⟩ 4).set ⟨_, h3⟩ 3).set
        ⟨_, h4⟩ 2).set ⟨_, h⟩ 1) := by
    simp only [delay_init_body, PIXELS_PER_TSTATE, bind, pure]
    simp only [GoArray.set?_of_lt _ h0, GoArray.set?_of_lt _ h1, GoArray.set?_of_lt _ h2,
      GoArray.set?_of_lt _ h3, GoArray.set?_of_lt _ h4, GoArray.set?_of_lt _ h,
      Option.some_bind]
  refine ⟨_, e, ?_⟩
  intro t
  obtain ⟨t, ht⟩ := t
  simp only [GoArray.get_set, Fin.mk.injEq]
  constructor
  · intro ha hb
    split_ifs <;> omega
  · intro hn
    split_ifs <;> first | rfl | omega

/-- The inner loop entered at chunk `c`: every chunk from `c` on receives its window. -/
theorem delay_init_x_spec (tstate : Nat) (h : tstate + 125 < TStatesPerFrame + 100)
    (n : Nat) : ∀ (c : Nat) (tbl : DelayTable), c + n = 16 →
    ∃ tbl', delay_init_x tstate (16 * c) tbl = some tbl' ∧
      ∀ t : Fin (TStatesPerFrame + 100),
        (tstate + 8 * c ≤ t.val → t.val < tstate + 128 → (t.val - tstate) % 8 < 6 →
          (tbl'.get t).val = 6 - (t.val - tstate) % 8) ∧
        (¬ (tstate + 8 * c ≤ t.val ∧ t.val < tstate + 128 ∧ (t.val - tstate) % 8 < 6) →
          tbl'.get t = tbl.get t) := by
  induction n with
  | zero =>
    intro c tbl hc
    refine ⟨tbl, ?_, ?_⟩
    · rw [delay_init_x, if_neg (by simp only [ScreenWidth]; omega)]
    · intro t
      exact ⟨fun _ _ _ => by omega, fun _ => rfl⟩
  | succ n ih =>
    intro c tbl hc
    obtain ⟨tbl1, e1, s1⟩ := delay_init_body_spec tstate (16 * c) tbl (by omega)
    obtain ⟨tbl2, e2, s2⟩ := ih (c + 1) tbl1 (by omega)
    refine ⟨tbl2, ?_, ?_⟩
    · rw [delay_init_x, if_pos (by simp only [ScreenWidth]; omega), e1, Option.some_bind]
      exact e2
    · intro t
      have a1 := s1 t
      have a2 := s2 t
      constructor
      · intro ha hb hc
        by_cases hw : tstate + 8 * (c + 1) ≤ t.val
        · exact a2.1 hw hb hc
        · rw [a2.2 (by omega), a1.1 (by omega) (by omega)]
          omega
      · intro hn
        rw [a2.2 (by omega), a1.2 (by omega)]

/-- The outer loop entered at line `y`: every line from `y` on receives its windows. -/
theorem delay_init_y_spec (t0 : Nat) (h : t0 + 224 * 191 + 125 < TStatesPerFrame + 100)
    (n : Nat) : ∀ (y : Nat) (tbl : DelayTable), y + n = 192 →
    ∃ tbl', delay_init_y (t0 + 224 * y) y tbl = some tbl' ∧
      ∀ t : Fin (TStatesPerFrame + 100),
        (t0 + 224 * y ≤ t.val → t.val < t0 + 224 * 192 → (t.val - t0) % 224 < 128 →
          (t.val - t0) % 224 % 8 < 6 →
          (tbl'.get t).val = 6 - (t.val - t0) % 224 % 8) ∧
        (¬ (t0 + 224 * y ≤ t.val ∧ t.val < t0 + 224 * 192 ∧ (t.val - t0) % 224 < 128 ∧
            (t.val - t0) % 224 % 8 < 6) →
          tbl'.get t = tbl.get t) := by
  induction n with
  | zero =>
    intro y tbl hy
    refine ⟨tbl, ?_, ?_⟩
    · rw [delay_init_y, if_neg (by simp only [ScreenHeight]; omega)]
    · intro t
      exact ⟨fun _ _ _ _ => by omega, fun _ => rfl⟩
  | succ n ih =>
    intro y tbl hy
    obtain ⟨tbl1, e1, s1⟩ := delay_init_x_spec (t0 + 224 * y) (by omega) 16 0 tbl rfl
    obtain ⟨tbl2, e2, s2⟩ := ih (y + 1) tbl1 (by omega)
    refine ⟨tbl2, ?_, ?_⟩
    · have e1' : delay_init_x (t0 + 224 * y) 0 tbl = some tbl1 := e1
      have e3 : t0 + 224 * y + 224 = t0 + 224 * (y + 1) := by omega
      rw [delay_init_y, if_pos (by simp only [ScreenHeight]; omega), e1', Option.some_bind,
        TSTATES_PER_LINE_eq, e3]
      exact e2
    · intro t
      have a1 := s1 t
      have a2 := s2 t
      constructor
      · intro ha hb hc hd
        by_cases hw : t0 + 224 * (y + 1) ≤ t.val
        · exact a2.1 hw hb hc hd
        · rw [a2.2 (by omega), a1.1 (by omega) (by omega) (by omega)]
          omega
      · intro hn
        rw [a2.2 (by omega), a1.2 (by omega)]

/-- The closed form of the contention table: `init` succeeds, and the entry of tick
`t` is `6 - r % 8` when `t` lies `r < 128` ticks (with `r % 8 < 6`) after
`FIRST_SCREEN_BYTE - 1` plus a multiple, below 192, of 224, and 0 otherwise. -/
theorem delay_table_closed_form :
    delay_table_init = some delay_table ∧
    ∀ t : Fin (TStatesPerFrame + 100),
      (delay_table.get t).val =
        if 14335 ≤ t.val ∧ t.val < 14335 + 224 * 192 ∧ (t.val - 14335) % 224 < 128 ∧
            (t.val - 14335) % 224 % 8 < 6
        then 6 - (t.val - 14335) % 224 % 8 else 0 := by
  obtain ⟨tbl, e, s⟩ := delay_init_y_spec 14335 (by rw [TStatesPerFrame_eq]; omega) 192 0
    (GoArray.fill 0) rfl
  have e' : delay_table_init = some tbl := e
  have hd : delay_table = tbl := by rw [delay_table, e']; rfl
  rw [hd]
  refine ⟨e', fun t => ?_⟩
  split_ifs with hc
  · exact (s t).1 (by omega) hc.2.1 hc.2.2.1 hc.2.2.2
  · rw [(s t).2 (by omega)]; rfl

/-! ### The contended address range -/

theorem shiftRight_and (a b i : Nat) : (a &&& b) >>> i = a >>> i &&& b >>> i :=
  Nat.eq_of_testBit_eq (by simp)

theorem and_mod_two_pow (a b n : Nat) : (a &&& b) % 2 ^ n = a % 2 ^ n &&& b % 2 ^ n :=
  Nat.eq_of_testBit_eq (by intro i; simp; by_cases h : i < n <;> simp [h])

theorem land_c000 (a : Nat) (h : a < 0x10000) : a &&& 0xc000 = (a / 0x4000) * 0x4000 := by
  have h2 : (a &&& 0xc000) % 2 ^ 14 = 0 := by
    rw [and_mod_two_pow]
    simp
  have h3 : (a &&& 0xc000) / 2 ^ 14 = a / 0x4000 := by
    rw [← Nat.shiftRight_eq_div_pow, shiftRight_and, Nat.shiftRight_eq_div_pow]
    have : a / 2 ^ 14 < 4 := by omega
    have e : (0xc000 : Nat) >>> 14 = 3 := by decide
    rw [e]
    have e2 : a / 0x4000 = a / 2 ^ 14 := rfl
    rw [e2]
    generalize a / 2 ^ 14 = q at *
    interval_cases q <;> decide
  omega

theorem contended_iff (a : Address) :
    a.val &&& 0xc000 = 0x4000 ↔ 0x4000 ≤ a.val ∧ a.val ≤ 0x7fff := by
  rw [land_c000 a.val a.isLt]
  omega

/-! ## The contention table -/

/-- C1: after package initialisation (`init` succeeds and yields `delay_table`), every
window tick `(FIRST_SCREEN_BYTE - 1) + TSTATES_PER_LINE * y + 8 * c + k` with `y < 192`,
`c < 16`, `k < 6` lies inside the table and holds `6 - k`, and every tick of the table
that is not of this form holds 0. -/
theorem delay_table_windows :
    delay_table_init = some delay_table ∧
    (∀ y c k : Nat, y < ScreenHeight → c < 16 → k < 6 →
      (FIRST_SCREEN_BYTE - 1) + TSTATES_PER_LINE * y + 8 * c + k < TStatesPerFrame + 100) ∧
    ∀ t : Fin (TStatesPerFrame + 100),
      (∀ y c k : Nat, y < ScreenHeight → c < 16 → k < 6 →
        t.val = (FIRST_SCREEN_BYTE - 1) + TSTATES_PER_LINE * y + 8 * c + k →
        (delay_table.get t).val = 6 - k) ∧
      ((¬ ∃ y c k : Nat, y < ScreenHeight ∧ c < 16 ∧ k < 6 ∧
          t.val = (FIRST_SCREEN_BYTE - 1) + TSTATES_PER_LINE * y + 8 * c + k) →
        (delay_table.get t).val = 0) := by
  refine ⟨delay_table_closed_form.1, ?_, fun t => ⟨?_, ?_⟩⟩
  · intro y c k hy hc hk
    rw [TStatesPerFrame_eq, TSTATES_PER_LINE_eq]
    simp only [ScreenHeight, FIRST_SCREEN_BYTE] at *
    omega
  · intro y c k hy hc hk ht
    rw [delay_table_closed_form.2 t]
    rw [TSTATES_PER_LINE_eq] at ht
    simp only [ScreenHeight, FIRST_SCREEN_BYTE] at *
    rw [if_pos (by omega)]
    omega
  · intro hn
    rw [delay_table_closed_form.2 t]
    rw [if_neg]
    intro hc
    apply hn
    refine ⟨(t.val - 14335) / 224, (t.val - 14335) % 224 / 8, (t.val - 14335) % 224 % 8,
      ?_, ?_, ?_, ?_⟩
    · simp only [ScreenHeight]; omega
    · omega
    · omega
    · rw [TSTATES_PER_LINE_eq]
      simp only [FIRST_SCREEN_BYTE]
      omega

/-- Witness of C1: tick 14335 opens the first window and holds 6; tick 0 lies in no
window and holds 0. -/
theorem delay_table_windows_witness :
    (delay_table.get ⟨14335, by decide⟩).val = 6 - 0 ∧
    (delay_table.get ⟨0, by decide⟩).val = 0 :=
  ⟨(delay_table_windows.2.2 ⟨14335, by decide⟩).1 0 0 0 (by decide) (by decide) (by decide)
      (by decide),
    (delay_table_windows.2.2 ⟨0, by decide⟩).2 (by
      rintro ⟨y, c, k, -, -, -, h⟩
      simp only [FIRST_SCREEN_BYTE] at h
      omega)⟩

/-- The entry of the table at a tick given as a number inside the table. -/
theorem delay_table_lookup (t : Nat) (h : t < TStatesPerFrame + 100) :
    ∃ d : Byte, delay_table.get? t = some d ∧ d.val =
      if 14335 ≤ t ∧ t < 14335 + 224 * 192 ∧ (t - 14335) % 224 < 128 ∧
            (t - 14335) % 224 % 8 < 6
        then 6 - (t - 14335) % 224 % 8 else 0 :=
  ⟨_, GoArray.get?_of_lt _ h, delay_table_closed_form.2 ⟨t, h⟩⟩

/-- The entry of the table at a given tick, from its value. -/
theorem delay_table_lookup_eq (t v : Nat) (h : t < TStatesPerFrame + 100) (hv : v < 256)
    (e : (if 14335 ≤ t ∧ t < 14335 + 224 * 192 ∧ (t - 14335) % 224 < 128 ∧
            (t - 14335) % 224 % 8 < 6
        then 6 - (t - 14335) % 224 % 8 else 0) = v) :
    delay_table.get? t = some ⟨v, hv⟩ := by
  obtain ⟨d, e1, hd⟩ := delay_table_lookup t h
  rw [e1]
  congr 1
  apply Fin.ext
  rw [hd, e]

/-- Tick 14335 opens the first window. -/
theorem delay_table_at_14335 : delay_table.get? 14335 = some 6 :=
  delay_table_lookup_eq 14335 6 (by decide) (by decide) (by decide)

/-- Tick 14336, the first tick of the first chunk, is the second tick of its window. -/
theorem delay_table_at_14336 : delay_table.get? 14336 = some 5 :=
  delay_table_lookup_eq 14336 5 (by decide) (by decide) (by decide)

/-! ## Contention -/

/-- The tick after `contendMemory` on a contended address, in `uint` arithmetic. -/
theorem contendMemory_contended (w : Nat) (z80 : Z80) (address : Address) (time : Nat)
    (ha : address.val &&& 0xc000 = 0x4000) :
    contendMemory w z80 address time =
      (delay_table.get? z80.tstates).map fun d =>
        { tstates := ((z80.tstates + d.val) % 2 ^ w + time) % 2 ^ w } := by
  simp only [contendMemory, if_pos ha, Option.map_map]
  rfl

/-- The tick after `contendMemory` on an uncontended address, in `uint` arithmetic. -/
theorem contendMemory_uncontended (w : Nat) (z80 : Z80) (address : Address) (time : Nat)
    (ha : ¬ address.val &&& 0xc000 = 0x4000) :
    contendMemory w z80 address time = some { tstates := (z80.tstates + time) % 2 ^ w } := by
  simp only [contendMemory, if_neg ha, Option.map_some']

/-- C2: the test `(a & 0xc000) == 0x4000` selects the addresses 0x4000..0x7FFF; a tick
`t` inside the table has an entry `delay_table[t]`; for a contended address
`contendMemory` sets the tick counter to `t + delay_table[t] + time`, and for any other
address to `t + time` whatever `t` is (both when the sum does not overflow `uint`). -/
theorem contendMemory_tick (w : Nat) (z80 : Z80) (address : Address) (time : Nat) :
    (address.val &&& 0xc000 = 0x4000 ↔ 0x4000 ≤ address.val ∧ address.val ≤ 0x7fff) ∧
    (z80.tstates < TStatesPerFrame + 100 → ∃ d, delay_table.get? z80.tstates = some d) ∧
    (0x4000 ≤ address.val ∧ address.val ≤ 0x7fff →
      ∀ d : Byte, delay_table.get? z80.tstates = some d →
      z80.tstates + d.val + time < 2 ^ w →
      contendMemory w z80 address time = some { tstates := z80.tstates + d.val + time }) ∧
    (¬ (0x4000 ≤ address.val ∧ address.val ≤ 0x7fff) → z80.tstates + time < 2 ^ w →
      contendMemory w z80 address time = some { tstates := z80.tstates + time }) := by
  refine ⟨contended_iff address, fun ht => ⟨_, GoArray.get?_of_lt _ ht⟩, ?_, ?_⟩
  · intro ha d hd hov
    rw [contendMemory_contended w z80 address time ((contended_iff address).2 ha), hd,
      Option.map_some']
    have h1 : (z80.tstates + d.val) % 2 ^ w = z80.tstates + d.val :=
      Nat.mod_eq_of_lt (by omega)
    rw [h1, Nat.mod_eq_of_lt hov]
  · intro ha hov
    rw [contendMemory_uncontended w z80 address time (fun h => ha ((contended_iff address).1 h)),
      Nat.mod_eq_of_lt hov]

/-- Witness of C2: a read of 0x4000 (contended) at tick 14335, where the table holds 6,
with base cost 3, and a read of 0x8000 (uncontended) at tick 70000, outside the table;
`uint` is 64 bits wide. -/
theorem contendMemory_tick_witness :
    contendMemory 64 ⟨14335⟩ 0x4000 3 = some { tstates := 14335 + 6 + 3 } ∧
    contendMemory 64 ⟨70000⟩ 0x8000 3 = some { tstates := 70000 + 3 } := by
  have h := (contendMemory_tick 64 ⟨14335⟩ 0x4000 3).2.2.1 (by decide) 6
  have h2 := h delay_table_at_14335
  have h3 : (⟨14335⟩ : Z80).tstates + (6 : Byte).val + 3 < 2 ^ 64 := by decide
  have h4 := h2 h3
  have k := (contendMemory_tick 64 ⟨70000⟩ 0x8000 3).2.2.2 (by decide) (by decide)
  exact ⟨h4, k⟩

/-! ### The repeated access -/

/-- Repeating `contendMemory` on an uncontended address adds `time * count`. -/
theorem contendMemory_times_uncontended (w : Nat) (address : Address) (time : Nat)
    (ha : ¬ address.val &&& 0xc000 = 0x4000) :
    ∀ (count : Nat) (z80 : Z80), z80.tstates < 2 ^ w →
      contendMemory_times w address time count z80 =
        some { tstates := (z80.tstates + time * count) % 2 ^ w } := by
  intro count
  induction count with
  | zero =>
    intro z80 h
    simp only [contendMemory_times, Nat.mul_zero, Nat.add_zero, Nat.mod_eq_of_lt h]
  | succ n ih =>
    intro z80 h
    rw [contendMemory_times, contendMemory_uncontended w z80 address time ha, Option.some_bind,
      ih _ (Nat.mod_lt _ (Nat.two_pow_pos w))]
    simp only [Nat.mod_add_mod, Nat.mul_succ]
    congr 3
    omega

/-- The loop of `contendMemory_loop` performs the remaining `count - i` iterations of
`contendMemory`. -/
theorem contendMemory_loop_iter_eq (w : Nat) (address : Address) (time count : Nat)
    (ha : address.val &&& 0xc000 = 0x4000) :
    ∀ (n i tstates : Nat), i + n = count →
      (contendMemory_loop_iter w time count i tstates).map (fun t => ({ tstates := t } : Z80)) =
        contendMemory_times w address time n { tstates := tstates } := by
  intro n
  induction n with
  | zero =>
    intro i t h
    rw [contendMemory_loop_iter, if_neg (by omega)]
    rfl
  | succ n ih =>
    intro i t h
    rw [contendMemory_loop_iter, if_pos (by omega), contendMemory_times,
      contendMemory_contended w _ address time ha]
    cases hd : delay_table.get? t with
    | none => simp [hd]
    | some d =>
      simp only [hd, Option.some_bind, Option.map_some']
      exact ih (i + 1) _ (by omega)

/-- C3: for every tick counter that is a `uint`, every address, base cost and count
(0 included), `contendMemory_loop` returns the tick counter, or aborts, exactly as
`count` successive calls of `contendMemory` do (each call reading the table at the tick
the previous one left); for an address outside 0x4000..0x7FFF the result is the closed
form `tstates + time * count` in `uint` arithmetic. -/
theorem contendMemory_loop_refines (w : Nat) (z80 : Z80) (address : Address)
    (time count : Nat) (h : z80.tstates < 2 ^ w) :
    contendMemory_loop w z80 address time count =
      contendMemory_times w address time count z80 ∧
    (¬ (0x4000 ≤ address.val ∧ address.val ≤ 0x7fff) →
      contendMemory_loop w z80 address time count =
        some { tstates := (z80.tstates + time * count) % 2 ^ w }) ∧
    contendMemory_times w address time 0 z80 = some z80 ∧
    contendMemory_times w address time (count + 1) z80 =
      (contendMemory w z80 address time).bind (contendMemory_times w address time count) := by
  have hu : ¬ address.val &&& 0xc000 = 0x4000 →
      contendMemory_loop w z80 address time count =
        some { tstates := (z80.tstates + time * count) % 2 ^ w } := by
    intro ha
    simp only [contendMemory_loop, if_neg ha, Option.map_some', Nat.add_mod_mod]
  refine ⟨?_, fun hr => hu (fun hm => hr ((contended_iff address).1 hm)), rfl, rfl⟩
  by_cases ha : address.val &&& 0xc000 = 0x4000
  · have := contendMemory_loop_iter_eq w address time count ha count 0 z80.tstates (by omega)
    simp only [contendMemory_loop, if_pos ha]
    exact this
  · rw [hu ha, contendMemory_times_uncontended w address time ha count z80 h]

/-- Witness of C3: two contended accesses of cost 3 from tick 14335, 64-bit `uint`. -/
theorem contendMemory_loop_refines_witness :
    contendMemory_loop 64 ⟨14335⟩ 0x4000 3 2 =
      contendMemory_times 64 0x4000 3 2 ⟨14335⟩ := by
  have h := contendMemory_loop_refines 64 ⟨14335⟩ 0x4000 3 2 (by decide)
  exact h.1


/-! ## Raw memory access -/

/-- C5: after the raw `Write(a, v, protectROM)`, `Read(a)` is `v` when `a >= 0x4000` or
`protectROM` is false; when `a < 0x4000` and `protectROM` is true the memory is
unchanged; in every case every other address keeps its byte. -/
theorem Memory.write_spec (memory : Memory) (a : Address) (v : Byte) (protectROM : Bool) :
    (a.val ≥ 0x4000 ∨ protectROM = false → (memory.Write a v protectROM).Read a = v) ∧
    (a.val < 0x4000 ∧ protectROM = true → memory.Write a v protectROM = memory) ∧
    (∀ a' : Address, a' ≠ a → (memory.Write a v protectROM).Read a' = memory.Read a') := by
  refine ⟨?_, ?_, ?_⟩
  · intro h
    have hc : a.val ≥ 0x4000 ∨ ¬ (protectROM = true) := by
      rcases h with h | h
      · exact Or.inl h
      · exact Or.inr (by simp [h])
    simp only [Memory.Write, if_pos hc, Memory.Read, GoArray.get_set, if_true]
  · intro h
    have hc : ¬ (a.val ≥ 0x4000 ∨ ¬ (protectROM = true)) := by
      rintro (h1 | h1)
      · omega
      · exact h1 h.2
    simp only [Memory.Write, if_neg hc]
  · intro a' hne
    simp only [Memory.Write]
    split_ifs
    · simp only [Memory.Read, GoArray.get_set, if_neg hne]
    · rfl

/-- Witness of C5: a write to RAM, a protected write to ROM and an unprotected write to
ROM, on the zeroed memory. -/
theorem Memory.write_spec_witness :
    (Memory.Write ⟨GoArray.fill 0⟩ 0x4000 7 true).Read 0x4000 = 7 ∧
    Memory.Write ⟨GoArray.fill 0⟩ 0x3fff 7 true = ⟨GoArray.fill 0⟩ ∧
    (Memory.Write ⟨GoArray.fill 0⟩ 0x3fff 7 false).Read 0x3fff = 7 := by
  have h1 := (Memory.write_spec ⟨GoArray.fill 0⟩ 0x4000 7 true).1 (Or.inl (by decide))
  have h2 := (Memory.write_spec ⟨GoArray.fill 0⟩ 0x3fff 7 true).2.1 ⟨by decide, rfl⟩
  have h3 := (Memory.write_spec ⟨GoArray.fill 0⟩ 0x3fff 7 false).1 (Or.inr rfl)
  exact ⟨h1, h2, h3⟩

/-- C6: `writeByteInternal(a, b)` makes exactly one call to the ULA, carrying `a`, the
byte stored at `a` before the write and `b`: `screenBitmapWrite` when
`0x4000 <= a < 0x5800`, `screenAttrWrite` when `0x5800 <= a < 0x5B00`; for any other
address the ULA receives no call. This holds for every `b`, the stored byte included. -/
theorem writeByteInternal_notifies (speccy : Spectrum48k) (a : Address) (b : Byte) :
    (0x4000 ≤ a.val ∧ a.val < 0x5800 →
      (writeByteInternal speccy a b).ula.calls =
        speccy.ula.calls ++ [UlaCall.screenBitmapWrite a (speccy.Memory.Read a) b]) ∧
    (0x5800 ≤ a.val ∧ a.val < 0x5b00 →
      (writeByteInternal speccy a b).ula.calls =
        speccy.ula.calls ++ [UlaCall.screenAttrWrite a (speccy.Memory.Read a) b]) ∧
    (¬ (0x4000 ≤ a.val ∧ a.val < 0x5b00) →
      (writeByteInternal speccy a b).ula.calls = speccy.ula.calls) := by
  refine ⟨?_, ?_, ?_⟩
  · intro h
    have h1 : a.val ≥ SCREEN_BASE_ADDR ∧ a.val < ATTR_BASE_ADDR := by
      simp only [SCREEN_BASE_ADDR, ATTR_BASE_ADDR]; omega
    have h2 : a.val ≥ 0x4000 := by omega
    simp only [writeByteInternal, if_pos h1, if_pos h2, Memory.Read]
  · intro h
    have h1 : ¬ (a.val ≥ SCREEN_BASE_ADDR ∧ a.val < ATTR_BASE_ADDR) := by
      simp only [SCREEN_BASE_ADDR, ATTR_BASE_ADDR]; omega
    have h1' : a.val ≥ ATTR_BASE_ADDR ∧ a.val < 0x5b00 := by
      simp only [ATTR_BASE_ADDR]; omega
    have h2 : a.val ≥ 0x4000 := by omega
    simp only [writeByteInternal, if_neg h1, if_pos h1', if_pos h2, Memory.Read]
  · intro h
    have h1 : ¬ (a.val ≥ SCREEN_BASE_ADDR ∧ a.val < ATTR_BASE_ADDR) := by
      simp only [SCREEN_BASE_ADDR, ATTR_BASE_ADDR]; omega
    have h1' : ¬ (a.val ≥ ATTR_BASE_ADDR ∧ a.val < 0x5b00) := by
      simp only [ATTR_BASE_ADDR]; omega
    simp only [writeByteInternal, if_neg h1, if_neg h1']
    split_ifs <;> rfl

/-- Witness of C6: writing the byte 5 that is already stored, at the first bitmap
address, at the last attribute address and just after the attribute window. -/
theorem writeByteInternal_notifies_witness :
    (writeByteInternal ⟨⟨0⟩, ⟨[]⟩, ⟨GoArray.fill 5⟩⟩ 0x4000 5).ula.calls =
      [] ++ [UlaCall.screenBitmapWrite 0x4000
        (Memory.Read (Spectrum48k.Memory ⟨⟨0⟩, ⟨[]⟩, ⟨GoArray.fill 5⟩⟩) 0x4000) 5] ∧
    (writeByteInternal ⟨⟨0⟩, ⟨[]⟩, ⟨GoArray.fill 5⟩⟩ 0x5aff 5).ula.calls =
      [] ++ [UlaCall.screenAttrWrite 0x5aff
        (Memory.Read (Spectrum48k.Memory ⟨⟨0⟩, ⟨[]⟩, ⟨GoArray.fill 5⟩⟩) 0x5aff) 5] ∧
    (writeByteInternal ⟨⟨0⟩, ⟨[]⟩, ⟨GoArray.fill 5⟩⟩ 0x5b00 5).ula.calls = [] := by
  have h1 := (writeByteInternal_notifies ⟨⟨0⟩, ⟨[]⟩, ⟨GoArray.fill 5⟩⟩ 0x4000 5).1
    (by decide)
  have h2 := (writeByteInternal_notifies ⟨⟨0⟩, ⟨[]⟩, ⟨GoArray.fill 5⟩⟩ 0x5aff 5).2.1
    (by decide)
  have h3 := (writeByteInternal_notifies ⟨⟨0⟩, ⟨[]⟩, ⟨GoArray.fill 5⟩⟩ 0x5b00 5).2.2
    (by decide)
  exact ⟨h1, h2, h3⟩

/-- C7: the raw `Write` leaves the CPU (tick counter) and the ULA (no call) unchanged
and changes the memory as `Memory.Write` does; the raw `Read` leaves the whole machine
unchanged and returns the stored byte. -/
theorem raw_access_frame (speccy : Spectrum48k) (a : Address) (v : Byte) (p : Bool) :
    (speccy.Write a v p).Cpu = speccy.Cpu ∧
    (speccy.Write a v p).ula = speccy.ula ∧
    (speccy.Write a v p).Memory = speccy.Memory.Write a v p ∧
    (speccy.Read a).2 = speccy ∧
    (speccy.Read a).1 = speccy.Memory.data.get a :=
  ⟨rfl, rfl, rfl, rfl, rfl⟩

/-- The loop of `reset` entered at `i` clears every address from `i` on. -/
theorem Memory.reset_loop_spec (n : Nat) : ∀ (i : Nat) (memory : Memory), i + n = 0x10000 →
    ∃ m', Memory.reset_loop i memory = some m' ∧
      ∀ a : Address, (i ≤ a.val → m'.data.get a = 0) ∧
        (a.val < i → m'.data.get a = memory.data.get a) := by
  induction n with
  | zero =>
    intro i memory h
    refine ⟨memory, ?_, fun a => ⟨fun ha => ?_, fun _ => rfl⟩⟩
    · rw [Memory.reset_loop, if_neg (by omega)]
    · have := a.isLt; omega
  | succ n ih =>
    intro i memory h
    have hi : i < 0x10000 := by omega
    obtain ⟨m', e, s⟩ := ih (i + 1) { data := memory.data.set ⟨i, hi⟩ 0 } (by omega)
    refine ⟨m', ?_, fun a => ⟨fun ha => ?_, fun ha => ?_⟩⟩
    · rw [Memory.reset_loop, if_pos hi, GoArray.set?_of_lt _ hi, Option.some_bind]
      exact e
    · by_cases hai : a.val = i
      · rw [(s a).2 (by omega), GoArray.get_set, if_pos (Fin.ext hai)]
      · exact (s a).1 (by omega)
    · rw [(s a).2 (by omega), GoArray.get_set, if_neg (by intro hc; rw [hc] at ha; simp at ha)]

/-- C8: `reset` returns, and afterwards `Read(a)` is 0 at every address. -/
theorem Memory.reset_clears (memory : Memory) :
    ∃ m', memory.reset = some m' ∧ ∀ a : Address, m'.Read a = 0 := by
  obtain ⟨m', e, s⟩ := Memory.reset_loop_spec 0x10000 0 memory rfl
  exact ⟨m', e, fun a => (s a).1 (Nat.zero_le _)⟩

/-! ## Accesses outside the table -/

/-- Counterexample to C9: at tick 70000, outside the table, `contendMemory` on the
uncontended address 0x8000 returns with the tick counter 70003. -/
theorem contendMemory_returns_outside_table :
    TStatesPerFrame + 100 ≤ (⟨70000⟩ : Z80).tstates ∧
    contendMemory 64 ⟨70000⟩ 0x8000 3 = some ⟨70003⟩ ∧
    contendMemory 64 ⟨70000⟩ 0x8000 3 ≠ none := by
  have h : contendMemory 64 ⟨70000⟩ 0x8000 3 = some ⟨70003⟩ := by
    rw [contendMemory_uncontended 64 ⟨70000⟩ 0x8000 3 (by decide)]
    rfl
  refine ⟨by decide, h, ?_⟩
  rw [h]
  exact Option.some_ne_none _

/-- The loop of `contendMemory_loop` aborts when entered outside the table with an
iteration left. -/
theorem contendMemory_loop_iter_outside (w time count i tstates : Nat) (hi : i < count)
    (ht : TStatesPerFrame + 100 ≤ tstates) :
    contendMemory_loop_iter w time count i tstates = none := by
  rw [contendMemory_loop_iter, if_pos hi, GoArray.get?_of_le _ ht]
  rfl

/-- C9, amended: with the tick counter outside the table, a timed access to a contended
address (0x4000..0x7FFF) aborts: `contendMemory`, `readByte`, `writeByte`, the
`contend*` wrappers, and the loop variants when `count >= 1`; on any other address
`contendMemory` does not read the table and returns with `tstates + time`. -/
theorem contendMemory_outside_table (w : Nat) (speccy : Spectrum48k) (address : Address)
    (time count : Nat) (b : Byte) (ht : TStatesPerFrame + 100 ≤ speccy.Cpu.tstates) :
    (0x4000 ≤ address.val ∧ address.val ≤ 0x7fff →
      contendMemory w speccy.Cpu address time = none ∧
      readByte w speccy address = none ∧
      writeByte w speccy address b = none ∧
      contendRead w speccy address time = none ∧
      contendReadNoMreq w speccy address time = none ∧
      contendWriteNoMreq w speccy address time = none ∧
      (0 < count →
        contendMemory_loop w speccy.Cpu address time count = none ∧
        contendReadNoMreq_loop w speccy address time count = none ∧
        contendWriteNoMreq_loop w speccy address time count = none)) ∧
    (¬ (0x4000 ≤ address.val ∧ address.val ≤ 0x7fff) →
      contendMemory w speccy.Cpu address time =
        some { tstates := (speccy.Cpu.tstates + time) % 2 ^ w }) := by
  constructor
  · intro ha
    have hm := (contended_iff address).2 ha
    have hc : ∀ time, contendMemory w speccy.Cpu address time = none := by
      intro time
      rw [contendMemory_contended w _ address time hm, GoArray.get?_of_le _ ht]
      rfl
    refine ⟨hc time, ?_, ?_, ?_, ?_, ?_, ?_⟩
    · rw [readByte, hc 3]; rfl
    · rw [writeByte, hc 3]; rfl
    · rw [contendRead, hc time]; rfl
    · rw [contendReadNoMreq, hc time]; rfl
    · rw [contendWriteNoMreq, hc time]; rfl
    · intro hcount
      have hl : contendMemory_loop w speccy.Cpu address time count = none := by
        simp only [contendMemory_loop, if_pos hm,
          contendMemory_loop_iter_outside w time count 0 _ hcount ht]
        rfl
      refine ⟨hl, ?_, ?_⟩
      · rw [contendReadNoMreq_loop, hl]; rfl
      · rw [contendWriteNoMreq_loop, hl]; rfl
  · intro ha
    exact contendMemory_uncontended w _ address time
      (fun h => ha ((contended_iff address).1 h))

/-- Witness of C9 (amended): the contended address 0x4000 at tick 70000. -/
theorem contendMemory_outside_table_witness :
    contendMemory 64 (Spectrum48k.Cpu ⟨⟨70000⟩, ⟨[]⟩, ⟨GoArray.fill 0⟩⟩) 0x4000 3 = none := by
  have h := (contendMemory_outside_table 64 ⟨⟨70000⟩, ⟨[]⟩, ⟨GoArray.fill 0⟩⟩ 0x4000 3 1 0
    (by decide)).1 (by decide)
  exact h.1


/-! ## The table of the screen lines -/

theorem checkPow_sound (p : Nat → Bool) : ∀ (k lo : Nat), checkPow p k lo = true →
    ∀ a, lo ≤ a → a < lo + 2 ^ k → p a = true := by
  intro k
  induction k with
  | zero =>
    intro lo h a h1 h2
    have : a = lo := by simp at h2; omega
    rw [this]; exact h
  | succ k ih =>
    intro lo h a h1 h2
    rw [checkPow, Bool.and_eq_true] at h
    rw [Nat.pow_succ] at h2
    by_cases hlt : a < lo + 2 ^ k
    · exact ih lo h.1 a h1 hlt
    · exact ih (lo + 2 ^ k) h.2 a (by omega) (by omega)

/-- On the visible lines the index stays inside the table, and the line is recovered
from the index by `screenAddr_to_xy`. -/
theorem screenline_index_lines : ∀ y : Nat, y < 192 →
    screenline_index y < 192 ∧
    (screenAddr_to_xy (Fin.ofNat (0x4000 + 32 * screenline_index y))).2 = y := by
  intro y hy
  have := checkPow_sound (fun y => decide (y < 192 →
    screenline_index y < 192 ∧
    (screenAddr_to_xy (Fin.ofNat (0x4000 + 32 * screenline_index y))).2 = y)) 8 0
    (by decide!) y (Nat.zero_le _) (by omega)
  exact of_decide_eq_true this hy

/-- The line of a bitmap address is visible and its index is the address's. -/
theorem screenline_index_addr : ∀ a : Nat, 0x4000 ≤ a → a < 0x5800 →
    (screenAddr_to_xy (Fin.ofNat a)).2 < 192 ∧
    screenline_index (screenAddr_to_xy (Fin.ofNat a)).2 = (a - 0x4000) / BytesPerLine ∧
    (screenAddr_to_xy (Fin.ofNat a)).1 = a % 32 * 8 := by
  intro a h1 h2
  have := checkPow_sound (fun a => decide (a < 0x5800 →
    (screenAddr_to_xy (Fin.ofNat a)).2 < 192 ∧
    screenline_index (screenAddr_to_xy (Fin.ofNat a)).2 = (a - 0x4000) / BytesPerLine ∧
    (screenAddr_to_xy (Fin.ofNat a)).1 = a % 32 * 8)) 13 0x4000
    (by decide!) a h1 (by omega)
  exact of_decide_eq_true this h2

/-- The loop of `init` of display.go entered at line `y`: every line from `y` on has its
entry assigned, and the entries of no such line are unchanged. -/
theorem screenline_init_loop_spec (n : Nat) : ∀ (y : Nat) (tbl : ScreenlineTable),
    y + n = 192 →
    ∃ tbl', screenline_init_loop y tbl = some tbl' ∧
      (∀ y', y ≤ y' → y' < 192 →
        tbl'.get? (screenline_index y') = some (FIRST_SCREEN_BYTE + y' * TSTATES_PER_LINE)) ∧
      (∀ i : Fin ScreenHeight, (∀ y', y ≤ y' → y' < 192 → screenline_index y' ≠ i.val) →
        tbl'.get i = tbl.get i) := by
  induction n with
  | zero =>
    intro y tbl h
    refine ⟨tbl, ?_, fun y' h1 h2 => by omega, fun _ _ => rfl⟩
    rw [screenline_init_loop, if_neg (by simp only [ScreenHeight]; omega)]
  | succ n ih =>
    intro y tbl h
    have hy : y < 192 := by omega
    have hidx : screenline_index y < ScreenHeight :=
      (screenline_index_lines y hy).1
    have hnext : (y + 1) % 0x100 = y + 1 := Nat.mod_eq_of_lt (by omega)
    obtain ⟨tbl', e, s1, s2⟩ := ih (y + 1)
      (tbl.set ⟨screenline_index y, hidx⟩ (FIRST_SCREEN_BYTE + y * TSTATES_PER_LINE))
      (by omega)
    have hinj : ∀ y', y + 1 ≤ y' → y' < 192 → screenline_index y' ≠ screenline_index y := by
      intro y' h1 h2 hc
      have e1 := (screenline_index_lines y' h2).2
      have e2 := (screenline_index_lines y hy).2
      rw [hc, e2] at e1
      omega
    refine ⟨tbl', ?_, ?_, ?_⟩
    · rw [screenline_init_loop, if_pos (by simp only [ScreenHeight]; omega)]
      simp only []
      have : tbl.set? (((xy_to_screenAddr 0 y).val + 0x10000 - SCREEN_BASE_ADDR) % 0x10000 /
          BytesPerLine) (FIRST_SCREEN_BYTE + y * TSTATES_PER_LINE) =
          some (tbl.set ⟨screenline_index y, hidx⟩
            (FIRST_SCREEN_BYTE + y * TSTATES_PER_LINE)) :=
        GoArray.set?_of_lt _ hidx _
      rw [this, Option.some_bind, hnext]
      exact e
    · intro y' h1 h2
      rcases Nat.eq_or_lt_of_le h1 with heq | hlt
      · subst heq
        rw [GoArray.get?_of_lt _ hidx, s2 ⟨screenline_index y, hidx⟩ hinj, GoArray.get_set,
          if_pos rfl]
      · exact s1 y' hlt h2
    · intro i hi
      rw [s2 i (fun y' h1 h2 => hi y' (by omega) h2), GoArray.get_set, if_neg]
      intro hc
      exact hi y (Nat.le_refl _) hy (by rw [hc])

/-- C10: `init` of display.go succeeds; for every address `addr` in 0x4000..0x57FF, with
`y` the line given by `screenAddr_to_xy(addr)`, the entry
`screenline_start_tstates[(addr - 0x4000) / BytesPerLine]` is
`FIRST_SCREEN_BYTE + y * TSTATES_PER_LINE`; every one of the 192 entries holds such a
value for a visible line `y`. -/
theorem screenline_start_tstates_spec :
    screenline_start_tstates_init = some screenline_start_tstates ∧
    (∀ addr : Address, 0x4000 ≤ addr.val → addr.val < 0x5800 →
      screenline_start_tstates.get? ((addr.val - 0x4000) / BytesPerLine) =
        some (FIRST_SCREEN_BYTE + (screenAddr_to_xy addr).2 * TSTATES_PER_LINE)) ∧
    (∀ i : Fin ScreenHeight, ∃ y : Nat, y < ScreenHeight ∧
      screenline_start_tstates.get i = FIRST_SCREEN_BYTE + y * TSTATES_PER_LINE) := by
  obtain ⟨tbl, e, s1, -⟩ := screenline_init_loop_spec 192 0 (GoArray.fill 0) rfl
  have e' : screenline_start_tstates_init = some tbl := e
  have hd : screenline_start_tstates = tbl := by rw [screenline_start_tstates, e']; rfl
  rw [hd]
  have haddr : ∀ addr : Address, 0x4000 ≤ addr.val → addr.val < 0x5800 →
      tbl.get? ((addr.val - 0x4000) / BytesPerLine) =
        some (FIRST_SCREEN_BYTE + (screenAddr_to_xy addr).2 * TSTATES_PER_LINE) := by
    intro addr h1 h2
    have hf := screenline_index_addr addr.val h1 h2
    have ha : (Fin.ofNat addr.val : Address) = addr :=
      Fin.ext (Nat.mod_eq_of_lt addr.isLt)
    rw [ha] at hf
    rw [← hf.2.1]
    exact s1 _ (Nat.zero_le _) hf.1
  refine ⟨e', haddr, ?_⟩
  intro i
  have hi : 0x4000 + 32 * i.val < 0x10000 := by
    have := i.isLt
    simp only [ScreenHeight] at this
    omega
  have h := haddr ⟨0x4000 + 32 * i.val, hi⟩ (by simp) (by
    have := i.isLt
    simp only [ScreenHeight] at this
    simp only []
    omega)
  have hf := screenline_index_addr (0x4000 + 32 * i.val) (by omega) (by
    have := i.isLt
    simp only [ScreenHeight] at this
    omega)
  have hidx : (0x4000 + 32 * i.val - 0x4000) / BytesPerLine = i.val := by
    simp only [BytesPerLine, ScreenWidth]
    omega
  simp only [hidx] at h
  rw [GoArray.get?_of_lt _ i.isLt] at h
  refine ⟨_, ?_, Option.some.inj h⟩
  have ha : (Fin.ofNat (0x4000 + 32 * i.val) : Address) = ⟨0x4000 + 32 * i.val, hi⟩ :=
    Fin.ext (Nat.mod_eq_of_lt hi)
  rw [ha] at hf
  exact hf.1

/-- Witness of C10: the address 0x4100, on line 1, whose entry has index 8. -/
theorem screenline_start_tstates_spec_witness :
    screenline_start_tstates.get? (((0x4100 : Address).val - 0x4000) / BytesPerLine) =
      some (FIRST_SCREEN_BYTE + (screenAddr_to_xy (0x4100 : Address)).2 * TSTATES_PER_LINE) := by
  have h := screenline_start_tstates_spec.2.1 (0x4100 : Address) (by decide) (by decide)
  exact h

/-! ## The position of the contention windows -/


/-- The tick `k < 6` of the window of chunk `c` on line `y` holds `6 - k`. -/
theorem delay_table_in_window (y c k : Nat) (hy : y < 192) (hc : c < 16) (hk : k < 6) :
    delay_table.get? (14335 + 224 * y + 8 * c + k) = some ⟨6 - k, by omega⟩ :=
  delay_table_lookup_eq _ _ (by rw [TStatesPerFrame_eq]; omega) _ (by
    rw [if_pos (by omega)]
    omega)

/-- The two ticks that follow a window hold 0. -/
theorem delay_table_after_window (y c k : Nat) (hy : y < 192) (hc : c < 16) (hk : k < 2) :
    delay_table.get? (14335 + 224 * y + 8 * c + 6 + k) = some 0 :=
  delay_table_lookup_eq _ 0 (by rw [TStatesPerFrame_eq]; omega) (by omega) (by
    rw [if_neg (by omega)])

/-- On a visible line the index that `init` computes in `uint16` is the plain one. -/
theorem screenline_index_plain : ∀ y : Nat, y < 192 →
    0x4000 ≤ (xy_to_screenAddr 0 y).val ∧
    ((xy_to_screenAddr 0 y).val - SCREEN_BASE_ADDR) / BytesPerLine = screenline_index y := by
  intro y hy
  have := checkPow_sound (fun y => decide (y < 192 →
    0x4000 ≤ (xy_to_screenAddr 0 y).val ∧
    ((xy_to_screenAddr 0 y).val - SCREEN_BASE_ADDR) / BytesPerLine = screenline_index y)) 8 0
    (by decide!) y (Nat.zero_le _) (by omega)
  exact of_decide_eq_true this hy

/-- The entry of `screenline_start_tstates` that `init` assigns for the line `y`. -/
theorem screenline_start_of_line (y : Nat) (hy : y < 192) :
    screenline_start_tstates.get? (screenline_index y) =
      some (FIRST_SCREEN_BYTE + y * TSTATES_PER_LINE) := by
  obtain ⟨tbl, e, s1, -⟩ := screenline_init_loop_spec 192 0 (GoArray.fill 0) rfl
  have e' : screenline_start_tstates_init = some tbl := e
  have hd : screenline_start_tstates = tbl := by rw [screenline_start_tstates, e']; rfl
  rw [hd]
  exact s1 y (Nat.zero_le _) hy

/-- Counterexample to C4: at the first tick of the first chunk of line 0, tick
`FIRST_SCREEN_BYTE`, the table holds 5, not 6. -/
theorem delay_window_at_chunk_start :
    delay_table.get? (FIRST_SCREEN_BYTE + 0 * TSTATES_PER_LINE + 8 * 0) = some 5 ∧
    delay_table.get? (FIRST_SCREEN_BYTE + 0 * TSTATES_PER_LINE + 8 * 0) ≠ some 6 := by
  have e : FIRST_SCREEN_BYTE + 0 * TSTATES_PER_LINE + 8 * 0 = 14336 := by decide
  rw [e, delay_table_at_14336]
  exact ⟨rfl, by decide⟩

/-- C4, amended: for every line `y < 192` and chunk `c < 16`, with
`F = FIRST_SCREEN_BYTE + y * TSTATES_PER_LINE + 8 * c` the first tick of the chunk, the
six-tick window starts one tick before `F`: the table holds 6 at `F - 1`, then
5, 4, 3, 2, 1 at `F .. F + 4`, and 0 at `F + 5`; for `c = 0`, `F` is the value stored in
`screenline_start_tstates` for the line. -/
theorem delay_window_before_chunk (y c : Nat) (hy : y < ScreenHeight) (hc : c < 16) :
    delay_table.get? (FIRST_SCREEN_BYTE + y * TSTATES_PER_LINE + 8 * c - 1) = some 6 ∧
    delay_table.get? (FIRST_SCREEN_BYTE + y * TSTATES_PER_LINE + 8 * c) = some 5 ∧
    delay_table.get? (FIRST_SCREEN_BYTE + y * TSTATES_PER_LINE + 8 * c + 1) = some 4 ∧
    delay_table.get? (FIRST_SCREEN_BYTE + y * TSTATES_PER_LINE + 8 * c + 2) = some 3 ∧
    delay_table.get? (FIRST_SCREEN_BYTE + y * TSTATES_PER_LINE + 8 * c + 3) = some 2 ∧
    delay_table.get? (FIRST_SCREEN_BYTE + y * TSTATES_PER_LINE + 8 * c + 4) = some 1 ∧
    delay_table.get? (FIRST_SCREEN_BYTE + y * TSTATES_PER_LINE + 8 * c + 5) = some 0 ∧
    screenline_start_tstates.get?
        (((xy_to_screenAddr 0 y).val - SCREEN_BASE_ADDR) / BytesPerLine) =
      some (FIRST_SCREEN_BYTE + y * TSTATES_PER_LINE + 8 * 0) := by
  simp only [ScreenHeight] at hy
  have e0 : FIRST_SCREEN_BYTE + y * TSTATES_PER_LINE + 8 * c - 1 = 14335 + 224 * y + 8 * c + 0 := by
    rw [TSTATES_PER_LINE_eq]; simp only [FIRST_SCREEN_BYTE]; omega
  have e1 : FIRST_SCREEN_BYTE + y * TSTATES_PER_LINE + 8 * c = 14335 + 224 * y + 8 * c + 1 := by
    rw [TSTATES_PER_LINE_eq]; simp only [FIRST_SCREEN_BYTE]; omega
  have e2 : FIRST_SCREEN_BYTE + y * TSTATES_PER_LINE + 8 * c + 1 =
      14335 + 224 * y + 8 * c + 2 := by omega
  have e3 : FIRST_SCREEN_BYTE + y * TSTATES_PER_LINE + 8 * c + 2 =
      14335 + 224 * y + 8 * c + 3 := by omega
  have e4 : FIRST_SCREEN_BYTE + y * TSTATES_PER_LINE + 8 * c + 3 =
      14335 + 224 * y + 8 * c + 4 := by omega
  have e5 : FIRST_SCREEN_BYTE + y * TSTATES_PER_LINE + 8 * c + 4 =
      14335 + 224 * y + 8 * c + 5 := by omega
  have e6 : FIRST_SCREEN_BYTE + y * TSTATES_PER_LINE + 8 * c + 5 =
      14335 + 224 * y + 8 * c + 6 + 0 := by omega
  refine ⟨?_, ?_, ?_, ?_, ?_, ?_, ?_, ?_⟩
  · rw [e0]; exact delay_table_in_window y c 0 hy hc (by omega)
  · rw [e1]; exact delay_table_in_window y c 1 hy hc (by omega)
  · rw [e2]; exact delay_table_in_window y c 2 hy hc (by omega)
  · rw [e3]; exact delay_table_in_window y c 3 hy hc (by omega)
  · rw [e4]; exact delay_table_in_window y c 4 hy hc (by omega)
  · rw [e5]; exact delay_table_in_window y c 5 hy hc (by omega)
  · rw [e6]; exact delay_table_after_window y c 0 hy hc (by omega)
  · rw [(screenline_index_plain y hy).2, screenline_start_of_line y hy]
    rfl

/-- Witness of C4 (amended): chunk 2 of line 1. -/
theorem delay_window_before_chunk_witness :
    delay_table.get? (FIRST_SCREEN_BYTE + 1 * TSTATES_PER_LINE + 8 * 2 - 1) = some 6 ∧
    delay_table.get? (FIRST_SCREEN_BYTE + 1 * TSTATES_PER_LINE + 8 * 2) = some 5 := by
  have h := delay_window_before_chunk 1 2 (by decide) (by decide)
  exact ⟨h.1, h.2.1⟩

/-! ## Sequences of timed accesses -/

/-- The loop variant is the repetition of `contendMemory`, for a tick counter that is a
`uint`. -/
theorem contendMemory_loop_eq_times (w : Nat) (z80 : Z80) (address : Address)
    (time count : Nat) (h : z80.tstates < 2 ^ w) :
    contendMemory_loop w z80 address time count =
      contendMemory_times w address time count z80 := by
  by_cases ha : address.val &&& 0xc000 = 0x4000
  · have := contendMemory_loop_iter_eq w address time count ha count 0 z80.tstates (by omega)
    simp only [contendMemory_loop, if_pos ha]
    exact this
  · rw [contendMemory_times_uncontended w address time ha count z80 h]
    simp only [contendMemory_loop, if_neg ha, Option.map_some', Nat.add_mod_mod]

/-- A delay moves the tick to a slot of the table that holds 0, and never beyond tick
57250. -/
theorem delay_table_after_delay (t : Nat) (ht : t < TStatesPerFrame + 100) :
    ∃ d : Byte, delay_table.get? t = some d ∧ delay_table.get? (t + d.val) = some 0 ∧
      d.val ≤ 6 ∧ (0 < d.val → t + d.val ≤ 57250) := by
  obtain ⟨d, e, hd⟩ := delay_table_lookup t ht
  rw [TStatesPerFrame_eq] at ht
  refine ⟨d, e, ?_, ?_, ?_⟩
  · split_ifs at hd with hc
    · exact delay_table_lookup_eq (t + d.val) 0 (by rw [TStatesPerFrame_eq]; omega) (by omega)
        (by rw [if_neg (by omega)])
    · rw [hd]
      exact delay_table_lookup_eq t 0 (by rw [TStatesPerFrame_eq]; omega) (by omega)
        (by rw [if_neg hc])
  · split_ifs at hd <;> omega
  · intro hpos
    split_ifs at hd <;> omega

/-- One access within the budget `b` of base costs stays inside the table. -/
theorem contendMemory_budget (w : Nat) (hw : TStatesPerFrame + 100 ≤ 2 ^ w) (z80 : Z80)
    (address : Address) (time b : Nat) (hb : b ≤ 100) (hz : z80.tstates + b ≤ 69987)
    (ht : time ≤ b) :
    ∃ z', contendMemory w z80 address time = some z' ∧ z'.tstates + (b - time) ≤ 69987 := by
  rw [TStatesPerFrame_eq] at hw
  by_cases ha : address.val &&& 0xc000 = 0x4000
  · obtain ⟨d, e, -, h6, hpos⟩ := delay_table_after_delay z80.tstates
      (by rw [TStatesPerFrame_eq]; omega)
    rw [contendMemory_contended w z80 address time ha, e, Option.map_some']
    refine ⟨_, rfl, ?_⟩
    simp only []
    have hd : z80.tstates + d.val + time + (b - time) ≤ 69987 := by
      rcases Nat.eq_zero_or_pos d.val with h0 | hp
      · omega
      · have := hpos hp; omega
    rw [Nat.mod_eq_of_lt (show z80.tstates + d.val < 2 ^ w by omega),
      Nat.mod_eq_of_lt (show z80.tstates + d.val + time < 2 ^ w by omega)]
    exact hd
  · rw [contendMemory_uncontended w z80 address time ha]
    refine ⟨_, rfl, ?_⟩
    simp only []
    rw [Nat.mod_eq_of_lt (show z80.tstates + time < 2 ^ w by omega)]
    omega

/-- Repeated accesses within the budget stay inside the table. -/
theorem contendMemory_times_budget (w : Nat) (hw : TStatesPerFrame + 100 ≤ 2 ^ w)
    (address : Address) (time : Nat) :
    ∀ (count : Nat) (z80 : Z80) (b : Nat), b ≤ 100 → z80.tstates + b ≤ 69987 →
      time * count ≤ b →
      ∃ z', contendMemory_times w address time count z80 = some z' ∧
        z'.tstates + (b - time * count) ≤ 69987 := by
  intro count
  induction count with
  | zero =>
    intro z80 b hb hz ht
    exact ⟨z80, rfl, by simpa using hz⟩
  | succ n ih =>
    intro z80 b hb hz ht
    rw [Nat.mul_succ] at ht
    obtain ⟨z1, e1, h1⟩ := contendMemory_budget w hw z80 address time b hb hz (by omega)
    obtain ⟨z2, e2, h2⟩ := ih z1 (b - time) (by omega) h1 (by omega)
    refine ⟨z2, ?_, ?_⟩
    · rw [contendMemory_times, e1, Option.some_bind, e2]
    · rw [Nat.mul_succ]
      omega

/-- A call within the budget stays inside the table. -/
theorem ContendCall.run_budget (w : Nat) (hw : TStatesPerFrame + 100 ≤ 2 ^ w)
    (c : ContendCall) (z80 : Z80) (b : Nat) (hb : b ≤ 100) (hz : z80.tstates + b ≤ 69987)
    (ht : c.cost ≤ b) :
    ∃ z', c.run w z80 = some z' ∧ z'.tstates + (b - c.cost) ≤ 69987 := by
  cases c with
  | single address time => exact contendMemory_budget w hw z80 address time b hb hz ht
  | loop address time count =>
    have hlt : z80.tstates < 2 ^ w := by rw [TStatesPerFrame_eq] at hw; omega
    simp only [ContendCall.run, ContendCall.cost,
      contendMemory_loop_eq_times w z80 address time count hlt]
    exact contendMemory_times_budget w hw address time count z80 b hb hz ht

/-- A sequence of calls within the budget stays inside the table. -/
theorem runCalls_budget (w : Nat) (hw : TStatesPerFrame + 100 ≤ 2 ^ w) :
    ∀ (calls : List ContendCall) (z80 : Z80) (b : Nat), b ≤ 100 →
      z80.tstates + b ≤ 69987 → (calls.map ContendCall.cost).sum ≤ b →
      ∃ z', runCalls w calls z80 = some z' ∧
        z'.tstates + (b - (calls.map ContendCall.cost).sum) ≤ 69987 := by
  intro calls
  induction calls with
  | nil =>
    intro z80 b hb hz ht
    exact ⟨z80, rfl, by simpa using hz⟩
  | cons c cs ih =>
    intro z80 b hb hz ht
    simp only [List.map_cons, List.sum_cons] at ht ⊢
    obtain ⟨z1, e1, h1⟩ := ContendCall.run_budget w hw c z80 b hb hz (by omega)
    obtain ⟨z2, e2, h2⟩ := ih z1 (b - c.cost) (by omega) h1 (by omega)
    refine ⟨z2, ?_, ?_⟩
    · rw [runCalls, e1, Option.some_bind, e2]
    · omega

/-- C16: with `TStatesPerFrame = TSTATES_PER_LINE * (LINES_TOP + LINES_SCREEN +
LINES_BOTTOM) = 69888`, `init` writes only inside the array, every entry at a tick from
57245 on is 0, and for a 32- or 64-bit `uint` (any width that holds the table indices)
every sequence of `contendMemory` / `contendMemory_loop` calls started at a tick
`<= TStatesPerFrame - 1`, whose base costs sum to at most 100, returns without an
out-of-range lookup and leaves the tick inside the table. -/
theorem delay_table_extension_sufficient :
    delay_table_init = some delay_table ∧
    TStatesPerFrame = TSTATES_PER_LINE * (LINES_TOP + LINES_SCREEN + LINES_BOTTOM) ∧
    TStatesPerFrame = 69888 ∧
    (∀ t : Nat, 57245 ≤ t → t < TStatesPerFrame + 100 → delay_table.get? t = some 0) ∧
    ∀ (w : Nat) (calls : List ContendCall) (z80 : Z80), TStatesPerFrame + 100 ≤ 2 ^ w →
      z80.tstates ≤ TStatesPerFrame - 1 → (calls.map ContendCall.cost).sum ≤ 100 →
      ∃ z', runCalls w calls z80 = some z' ∧ z'.tstates < TStatesPerFrame + 100 := by
  refine ⟨delay_table_closed_form.1, rfl, TStatesPerFrame_eq, ?_, ?_⟩
  · intro t h1 h2
    exact delay_table_lookup_eq t 0 h2 (by omega) (by rw [if_neg (by omega)])
  · intro w calls z80 hw hz hc
    rw [TStatesPerFrame_eq] at hz
    obtain ⟨z', e, h⟩ := runCalls_budget w hw calls z80 100 (Nat.le_refl _) (by omega) hc
    exact ⟨z', e, by rw [TStatesPerFrame_eq]; omega⟩

/-- Witness of C16: from the last tick of the frame, a contended access of cost 4 and a
contended loop of two accesses of cost 3. -/
theorem delay_table_extension_sufficient_witness :
    ∃ z', runCalls 64 [ContendCall.single 0x4000 4, ContendCall.loop 0x4000 3 2]
      ⟨69887⟩ = some z' ∧ z'.tstates < TStatesPerFrame + 100 := by
  have h := delay_table_extension_sufficient.2.2.2.2 64
    [ContendCall.single 0x4000 4, ContendCall.loop 0x4000 3 2] ⟨69887⟩
    (by decide) (by decide) (by decide)
  exact h

/-! ## Timed access and idempotence of the delay -/

/-- C15: with the tick inside the table, `contendMemory(a, 3)` returns; `readByte(a)`
returns the stored byte and the machine with only the CPU so updated; `writeByte(a, v)`
leaves the CPU as `contendMemory(a, 3)` does, afterwards `Read(a) = v` when
`a >= 0x4000`, the memory is unchanged when `a < 0x4000`, and every other address keeps
its byte. -/
theorem timed_access (w : Nat) (speccy : Spectrum48k) (a : Address) (v : Byte)
    (ht : speccy.Cpu.tstates < TStatesPerFrame + 100) :
    ∃ cpu, contendMemory w speccy.Cpu a 3 = some cpu ∧
      readByte w speccy a = some (speccy.Memory.Read a, { speccy with Cpu := cpu }) ∧
      ∃ s', writeByte w speccy a v = some s' ∧ s'.Cpu = cpu ∧
        (a.val ≥ 0x4000 → s'.Memory.Read a = v) ∧
        (a.val < 0x4000 → s'.Memory = speccy.Memory) ∧
        (∀ a' : Address, a' ≠ a → s'.Memory.Read a' = speccy.Memory.Read a') := by
  have hsome : ∃ cpu, contendMemory w speccy.Cpu a 3 = some cpu := by
    by_cases ha : a.val &&& 0xc000 = 0x4000
    · rw [contendMemory_contended w _ a 3 ha, GoArray.get?_of_lt _ ht]
      exact ⟨_, rfl⟩
    · rw [contendMemory_uncontended w _ a 3 ha]
      exact ⟨_, rfl⟩
  obtain ⟨cpu, e⟩ := hsome
  refine ⟨cpu, e, ?_, ?_⟩
  · rw [readByte, e]
    rfl
  · refine ⟨writeByteInternal { speccy with Cpu := cpu } a v, ?_, ?_, ?_, ?_, ?_⟩
    · rw [writeByte, e]
      rfl
    · simp only [writeByteInternal]
      split_ifs <;> rfl
    · intro h
      simp only [writeByteInternal, if_pos h, Memory.Read, GoArray.get_set, if_true]
    · intro h
      have h' : ¬ a.val ≥ 0x4000 := by omega
      have h1 : ¬ (a.val ≥ SCREEN_BASE_ADDR ∧ a.val < ATTR_BASE_ADDR) := by
        simp only [SCREEN_BASE_ADDR, ATTR_BASE_ADDR]; omega
      have h2 : ¬ (a.val ≥ ATTR_BASE_ADDR ∧ a.val < 0x5b00) := by
        simp only [ATTR_BASE_ADDR]; omega
      simp only [writeByteInternal, if_neg h', if_neg h1, if_neg h2]
    · intro a' hne
      simp only [writeByteInternal]
      split_ifs <;> simp only [Memory.Read, GoArray.get_set, if_neg hne]

/-- Witness of C15: a timed read of 0x4000 at tick 0 on the zeroed machine. -/
theorem timed_access_witness :
    ∃ cpu, contendMemory 64 (Spectrum48k.Cpu ⟨⟨0⟩, ⟨[]⟩, ⟨GoArray.fill 0⟩⟩) 0x4000 3 = some cpu ∧
      readByte 64 ⟨⟨0⟩, ⟨[]⟩, ⟨GoArray.fill 0⟩⟩ 0x4000 =
        some (Memory.Read (Spectrum48k.Memory ⟨⟨0⟩, ⟨[]⟩, ⟨GoArray.fill 0⟩⟩) 0x4000,
          { (⟨⟨0⟩, ⟨[]⟩, ⟨GoArray.fill 0⟩⟩ : Spectrum48k) with Cpu := cpu }) := by
  have h := timed_access 64 ⟨⟨0⟩, ⟨[]⟩, ⟨GoArray.fill 0⟩⟩ 0x4000 7 (by decide)
  obtain ⟨cpu, e1, e2, -⟩ := h
  exact ⟨cpu, e1, e2⟩

/-- C19: for every tick `t` inside the table, `t + delay_table[t]` is inside the table
and holds 0; hence, for a contended address and a `uint` that holds the table indices,
`contendMemory` with base cost 0 applied to its own result changes nothing. -/
theorem contention_idempotent (t : Nat) (ht : t < TStatesPerFrame + 100) :
    (∃ d : Byte, delay_table.get? t = some d ∧ delay_table.get? (t + d.val) = some 0) ∧
    ∀ (w : Nat) (address : Address), TStatesPerFrame + 100 ≤ 2 ^ w →
      0x4000 ≤ address.val ∧ address.val ≤ 0x7fff →
      ∃ z1, contendMemory w ⟨t⟩ address 0 = some z1 ∧
        contendMemory w z1 address 0 = some z1 := by
  obtain ⟨d, e, e0, h6, hpos⟩ := delay_table_after_delay t ht
  refine ⟨⟨d, e, e0⟩, ?_⟩
  intro w address hw ha
  have hm := (contended_iff address).2 ha
  have hlt : t + d.val < 2 ^ w := by
    rw [TStatesPerFrame_eq] at hw ht
    rcases Nat.eq_zero_or_pos d.val with h0 | hp
    · omega
    · have := hpos hp
      omega
  refine ⟨⟨t + d.val⟩, ?_, ?_⟩
  · rw [contendMemory_contended w _ address 0 hm, e, Option.map_some']
    simp only [Nat.add_zero, Nat.mod_mod, Nat.mod_eq_of_lt hlt]
  · rw [contendMemory_contended w _ address 0 hm, e0, Option.map_some']
    simp only [Fin.val_zero, Nat.add_zero, Nat.mod_mod, Nat.mod_eq_of_lt hlt]

/-- Witness of C19: tick 14336, where the table holds 5. -/
theorem contention_idempotent_witness :
    (∃ d : Byte, delay_table.get? 14336 = some d ∧ delay_table.get? (14336 + d.val) = some 0) := by
  have h := contention_idempotent 14336 (by decide)
  exact h.1

/-! ## Screen coordinates and addresses -/


/-- The address of a pixel depends on `x` only through its byte column `x / 8`. -/
theorem xy_to_screenAddr_column (x y : Nat) :
    xy_to_screenAddr x y = xy_to_screenAddr (8 * (x / 8)) y := by
  have h : (8 * (x / 8)) >>> 3 = x >>> 3 := by
    simp only [Nat.shiftRight_eq_div_pow]
    omega
  simp only [xy_to_screenAddr, h]

/-- Clearing the low three bits of an 8-bit number. -/
theorem land_f8 (x : Nat) (hx : x < 256) : x &&& 0xf8 = 8 * (x / 8) := by
  have := checkPow_sound (fun x => decide (x &&& 0xf8 = 8 * (x / 8))) 8 0 (by decide!) x
    (Nat.zero_le _) (by omega)
  exact of_decide_eq_true this

/-- For every byte column `b` and every 8-bit line `y`: the coordinates are recovered
from the address, and the address of a visible line lies in the bitmap window. -/
theorem screen_roundtrip_columns (b y : Nat) (hb : b < 32) (hy : y < 256) :
    screenAddr_to_xy (xy_to_screenAddr (8 * b) y) = (8 * b, y) ∧
    (y < 192 → 0x4000 ≤ (xy_to_screenAddr (8 * b) y).val ∧
      (xy_to_screenAddr (8 * b) y).val < 0x5800) := by
  have := checkPow_sound (fun n => decide (
    screenAddr_to_xy (xy_to_screenAddr (8 * (n % 32)) (n / 32)) = (8 * (n % 32), n / 32) ∧
    (n / 32 < 192 → 0x4000 ≤ (xy_to_screenAddr (8 * (n % 32)) (n / 32)).val ∧
      (xy_to_screenAddr (8 * (n % 32)) (n / 32)).val < 0x5800))) 13 0 (by decide!)
    (32 * y + b) (Nat.zero_le _) (by omega)
  have h := of_decide_eq_true this
  have e1 : (32 * y + b) % 32 = b := by omega
  have e2 : (32 * y + b) / 32 = y := by omega
  rw [e1, e2] at h
  exact h

/-- For every bitmap address: its line is visible and its coordinates give it back. -/
theorem screen_roundtrip_addr (a : Nat) (h1 : 0x4000 ≤ a) (h2 : a < 0x5800) :
    (screenAddr_to_xy (Fin.ofNat a)).2 < 192 ∧
    xy_to_screenAddr (screenAddr_to_xy (Fin.ofNat a)).1 (screenAddr_to_xy (Fin.ofNat a)).2 =
      Fin.ofNat a := by
  have := checkPow_sound (fun a => decide (a < 0x5800 →
    (screenAddr_to_xy (Fin.ofNat a)).2 < 192 ∧
    xy_to_screenAddr (screenAddr_to_xy (Fin.ofNat a)).1 (screenAddr_to_xy (Fin.ofNat a)).2 =
      Fin.ofNat a)) 13 0x4000 (by decide!) a h1 (by omega)
  exact of_decide_eq_true this h2

/-- C17: for all 8-bit `x` and `y` (every `y` in 0..255),
`screenAddr_to_xy(xy_to_screenAddr(x, y))` is `(x & 0xf8, y)`: `x` with its low three
bits cleared, and `y`. -/
theorem screenAddr_left_inverse (x y : Nat) (hx : x < 256) (hy : y < 256) :
    screenAddr_to_xy (xy_to_screenAddr x y) = (x &&& 0xf8, y) := by
  rw [xy_to_screenAddr_column, land_f8 x hx]
  exact (screen_roundtrip_columns (x / 8) y (by omega) hy).1

/-- Witness of C17: `x = 0xab` and the line `y = 0xc8`, below the visible screen. -/
theorem screenAddr_left_inverse_witness :
    screenAddr_to_xy (xy_to_screenAddr 0xab 0xc8) = (0xab &&& 0xf8, 0xc8) := by
  have h := screenAddr_left_inverse 0xab 0xc8 (by decide) (by decide)
  exact h

/-- C18: for every 8-bit `x` and every `y < ScreenHeight` the address
`xy_to_screenAddr(x, y)` lies in 0x4000..0x57FF; for every address `a` in that window,
`screenAddr_to_xy(a) = (x, y)` has `y < 192` and `xy_to_screenAddr(x, y) = a`. -/
theorem screen_bitmap_bijection :
    (∀ x y : Nat, x < 256 → y < ScreenHeight →
      0x4000 ≤ (xy_to_screenAddr x y).val ∧ (xy_to_screenAddr x y).val < 0x5800) ∧
    (∀ a : Address, 0x4000 ≤ a.val → a.val < 0x5800 →
      (screenAddr_to_xy a).2 < ScreenHeight ∧
      xy_to_screenAddr (screenAddr_to_xy a).1 (screenAddr_to_xy a).2 = a) := by
  constructor
  · intro x y hx hy
    simp only [ScreenHeight] at hy
    rw [xy_to_screenAddr_column]
    exact (screen_roundtrip_columns (x / 8) y (by omega) (by omega)).2 hy
  · intro a h1 h2
    have h := screen_roundtrip_addr a.val h1 h2
    have ha : (Fin.ofNat a.val : Address) = a := Fin.ext (Nat.mod_eq_of_lt a.isLt)
    rw [ha] at h
    exact h

/-- Witness of C18: the last pixel of the screen and the last address of the window. -/
theorem screen_bitmap_bijection_witness :
    (0x4000 ≤ (xy_to_screenAddr 255 191).val ∧ (xy_to_screenAddr 255 191).val < 0x5800) ∧
    ((screenAddr_to_xy (0x57ff : Address)).2 < ScreenHeight ∧
      xy_to_screenAddr (screenAddr_to_xy (0x57ff : Address)).1
        (screenAddr_to_xy (0x57ff : Address)).2 = (0x57ff : Address)) := by
  have h1 := screen_bitmap_bijection.1 255 191 (by decide) (by decide)
  have h2 := screen_bitmap_bijection.2 (0x57ff : Address) (by decide) (by decide)
  exact ⟨h1, h2⟩

end Spectrum

namespace PrettyTest

/-! ## prettytest: assertions and `Run` -/

/-- A sequence of calls followed by one more call. -/
theorem runCalls_append (stat : String → Bool) :
    ∀ (cs ds : List (Call × callerInfo)) (t : T),
      runCalls stat (cs ++ ds) t = runCalls stat ds (runCalls stat cs t) := by
  intro cs
  induction cs with
  | nil => intro ds t; rfl
  | cons c cs ih =>
    intro ds t
    obtain ⟨c, caller⟩ := c
    simp only [List.cons_append, runCalls]
    exact ih ds _

/-- The status after a call: pending after `Pending`, failed after a failing assertion,
unchanged after a passing one. -/
theorem Call.apply_Status (stat : String → Bool) (caller : callerInfo) (c : Call) (t : T) :
    (c.apply stat caller t).Status =
      if c = Call.Pending then STATUS_PENDING
      else if c.fails stat = true then STATUS_FAIL else t.Status := by
  cases c <;>
    simp only [Call.apply, Call.fails, T.Equal, T.True, T.False, T.Path, T.Nil, T.NotNil,
      T.Pending, T.setup, T.fail, T.failWithCustomMsg, reduceCtorEq, if_false, if_true] <;>
    split_ifs <;> simp_all

/-- The last status after a call: failed exactly after a failing assertion. -/
theorem Call.apply_LastStatus (stat : String → Bool) (caller : callerInfo) (c : Call)
    (t : T) :
    (c.apply stat caller t).LastStatus =
      if c.fails stat = true then STATUS_FAIL else STATUS_PASS := by
  cases c <;>
    simp only [Call.apply, Call.fails, T.Equal, T.True, T.False, T.Path, T.Nil, T.NotNil,
      T.Pending, T.setup, T.fail, T.failWithCustomMsg] <;>
    split_ifs <;> simp_all

/-- C11: after any sequence of assertion calls on any `T`, `Failed()` is `!v` after
`True(v)` and `v` after `False(v)`; more generally, after any call it tells whether that
call, the most recent one, failed. -/
theorem Failed_reports_last (stat : String → Bool) (calls : List (Call × callerInfo))
    (t0 : T) (caller : callerInfo) (v : Bool) :
    ((runCalls stat calls t0).True caller v).Failed = !v ∧
    ((runCalls stat calls t0).False caller v).Failed = v ∧
    ∀ c : Call, (runCalls stat (calls ++ [(c, caller)]) t0).Failed = c.fails stat := by
  refine ⟨?_, ?_, ?_⟩
  · cases v <;> rfl
  · cases v <;> rfl
  · intro c
    rw [runCalls_append]
    simp only [runCalls, T.Failed, Call.apply_LastStatus]
    cases c.fails stat <;> rfl

/-- Counterexample to C12: on a fresh `T`, the failing `True(false)` followed by
`Pending()` leaves `TestFailed()` false. -/
theorem Pending_clears_failure :
    Call.fails (fun _ => true) (Call.True false) = true ∧
    (runCalls (fun _ => true)
      [(Call.True false, ⟨"", "", 0⟩), (Call.Pending, ⟨"", "", 0⟩)] (T.fresh [])).TestFailed
      = false := by
  decide

/-- The status after a sequence of calls that ends with the call `c`. -/
theorem runCalls_snoc_Status (stat : String → Bool) (cs : List (Call × callerInfo))
    (c : Call × callerInfo) (t : T) :
    (runCalls stat (cs ++ [c]) t).Status =
      if c.1 = Call.Pending then STATUS_PENDING
      else if c.1.fails stat = true then STATUS_FAIL else (runCalls stat cs t).Status := by
  obtain ⟨c, caller⟩ := c
  rw [runCalls_append]
  simp only [runCalls, Call.apply_Status]

/-- C12, amended: after a sequence of calls on a fresh `T`, `TestFailed()` is true
exactly when some assertion failed and no `Pending()` was called after it; a later
passing assertion never clears a failure; in a sequence without `Pending()`,
`TestFailed()` is true exactly when at least one assertion failed. -/
theorem TestFailed_iff (stat : String → Bool) (calls : List (Call × callerInfo))
    (t : List Errorf) :
    ((runCalls stat calls (T.fresh t)).TestFailed = true ↔
      ∃ pre c post, calls = pre ++ c :: post ∧ c.1.fails stat = true ∧
        ∀ d ∈ post, d.1 ≠ Call.Pending) ∧
    ((∀ d ∈ calls, d.1 ≠ Call.Pending) →
      ((runCalls stat calls (T.fresh t)).TestFailed = true ↔
        ∃ c ∈ calls, c.1.fails stat = true)) := by
  have main : ∀ calls : List (Call × callerInfo),
      ((runCalls stat calls (T.fresh t)).TestFailed = true ↔
        ∃ pre c post, calls = pre ++ c :: post ∧ c.1.fails stat = true ∧
          ∀ d ∈ post, d.1 ≠ Call.Pending) := by
    intro calls
    induction calls using List.reverseRecOn with
    | nil =>
      constructor
      · intro h
        simp [runCalls, T.fresh, T.TestFailed, STATUS_PASS, STATUS_FAIL] at h
      · rintro ⟨pre, c, post, h, -⟩
        exact absurd h (by simp)
    | append_singleton cs c ih =>
      have hs := runCalls_snoc_Status stat cs c (T.fresh t)
      simp only [T.TestFailed, beq_iff_eq] at ih ⊢
      rw [hs]
      by_cases hp : c.1 = Call.Pending
      · rw [if_pos hp]
        constructor
        · intro h
          exact absurd h (by decide)
        · rintro ⟨pre, x, post, h, hx, hpost⟩
          exfalso
          rcases List.eq_nil_or_concat post with hnil | ⟨post', y, hy⟩
          · subst hnil
            have := List.append_inj_right' h rfl
            simp at this
            rw [← this, hp] at hx
            simp [Call.fails] at hx
          · subst hy
            have h' : cs ++ [c] = (pre ++ x :: post') ++ [y] := by
              rw [h]; simp
            have := List.append_inj_right' h' (by simp)
            simp at this
            exact hpost y (by simp) (this ▸ hp)
      · rw [if_neg hp]
        by_cases hf : c.1.fails stat = true
        · rw [if_pos hf]
          constructor
          · intro _
            exact ⟨cs, c, [], rfl, hf, by simp⟩
          · intro _; rfl
        · rw [if_neg hf, ih]
          constructor
          · rintro ⟨pre, x, post, h, hx, hpost⟩
            refine ⟨pre, x, post ++ [c], by rw [h]; simp, hx, ?_⟩
            intro d hd
            rcases List.mem_append.1 hd with h1 | h1
            · exact hpost d h1
            · simp at h1; rw [h1]; exact hp
          · rintro ⟨pre, x, post, h, hx, hpost⟩
            rcases List.eq_nil_or_concat post with hnil | ⟨post', y, hy⟩
            · subst hnil
              have := List.append_inj_right' h rfl
              simp at this
              rw [this] at hf
              exact absurd hx hf
            · subst hy
              have h' : cs ++ [c] = (pre ++ x :: post') ++ [y] := by
                rw [h]; simp
              have h1 := List.append_inj_left' h' (by simp)
              exact ⟨pre, x, post', h1, hx, fun d hd => hpost d (by simp [hd])⟩
  refine ⟨main calls, ?_⟩
  intro hnp
  rw [main calls]
  constructor
  · rintro ⟨pre, c, post, h, hc, -⟩
    exact ⟨c, by rw [h]; simp, hc⟩
  · rintro ⟨c, hmem, hc⟩
    obtain ⟨pre, post, h⟩ := List.append_of_mem hmem
    exact ⟨pre, c, post, h, hc, fun d hd => hnp d (by rw [h]; simp [hd])⟩

/-- Witness of C12 (amended): a failing assertion followed by a passing one. -/
theorem TestFailed_iff_witness :
    (runCalls (fun _ => true)
        [(Call.True false, ⟨"", "", 0⟩), (Call.True true, ⟨"", "", 0⟩)] (T.fresh [])).TestFailed
        = true ↔
      ∃ c ∈ [(Call.True false, (⟨"", "", 0⟩ : callerInfo)), (Call.True true, ⟨"", "", 0⟩)],
        c.1.fails (fun _ => true) = true := by
  have h := (TestFailed_iff (fun _ => true)
    [(Call.True false, ⟨"", "", 0⟩), (Call.True true, ⟨"", "", 0⟩)] []).2
  exact h (by decide)

/-- C20, on two concrete argument lists. With `beforeAll, before, after` followed by two
tests (the order of console_test.go), `beforeAll` is invoked once and each test is
invoked between `before` and `after`. With `before, beforeAll, after` followed by a
test, both `getFuncId` for `before` and for `beforeAll` return the index 1, `beforeAll`
is invoked three times and `before` is run as a test case. -/
theorem Run_hook_order :
    (Run "console.TestCommands" []
        [emptyTest "console.beforeAll", emptyTest "console.before", emptyTest "console.after",
          emptyTest "console.testCommandHelp", emptyTest "console.testCommandScript"]).map
        (fun st => st.events) =
      some [Event.header "console.TestCommands", Event.invoke 0,
        Event.invoke 1, Event.invoke 3, Event.invoke 2, Event.print LABEL_PASS "",
        Event.invoke 1, Event.invoke 4, Event.invoke 2, Event.print LABEL_PASS ""] ∧
    getFuncId "before"
        [emptyTest "console.before", emptyTest "console.beforeAll", emptyTest "console.after",
          emptyTest "console.testCommandHelp"] = 1 ∧
    getFuncId "beforeAll"
        [emptyTest "console.before", emptyTest "console.beforeAll", emptyTest "console.after",
          emptyTest "console.testCommandHelp"] = 1 ∧
    (Run "console.TestCommands" []
        [emptyTest "console.before", emptyTest "console.beforeAll", emptyTest "console.after",
          emptyTest "console.testCommandHelp"]).map (fun st => st.events) =
      some [Event.header "console.TestCommands",
        Event.invoke 1, Event.invoke 0, Event.invoke 2, Event.print LABEL_PASS "",
        Event.invoke 1,
        Event.invoke 1, Event.invoke 3, Event.invoke 2, Event.print LABEL_PASS ""] := by
  decide

end PrettyTest

namespace Frontend

/-! ### The loop on a sequence of events -/

/-- The loop stops on an event whose body returns. -/
theorem eventLoop_cons_returned {ε : Type} (handle : ε → World → Step) (e : ε)
    (es : List ε) (world : World) (h : (handle e world).returned = true) :
    eventLoop handle (e :: es) world = handle e world := by
  simp only [eventLoop, h, if_true]

/-- The loop goes on after an event whose body does not return. -/
theorem eventLoop_cons_running {ε : Type} (handle : ε → World → Step) (e : ε)
    (es : List ε) (world : World) (h : (handle e world).returned = false) :
    eventLoop handle (e :: es) world =
      ⟨(eventLoop handle es (handle e world).world).world,
        (handle e world).actions ++ (eventLoop handle es (handle e world).world).actions,
        (eventLoop handle es (handle e world).world).returned⟩ := by
  simp only [eventLoop, h, Bool.false_eq_true, if_false]

/-- Once the body has returned, later events are not received. -/
theorem eventLoop_append_returned {ε : Type} (handle : ε → World → Step) :
    ∀ (pre post : List ε) (world : World), (eventLoop handle pre world).returned = true →
      eventLoop handle (pre ++ post) world = eventLoop handle pre world := by
  intro pre
  induction pre with
  | nil =>
    intro post world h
    simp [eventLoop] at h
  | cons e es ih =>
    intro post world h
    rw [List.cons_append]
    cases hr : (handle e world).returned with
    | true =>
      rw [eventLoop_cons_returned handle e _ world hr, eventLoop_cons_returned handle e _ world hr]
    | false =>
      rw [eventLoop_cons_running handle e es world hr] at h
      rw [eventLoop_cons_running handle e _ world hr, eventLoop_cons_running handle e es world hr,
        ih post _ h]

/-- While the body has not returned, the loop goes on from the world reached. -/
theorem eventLoop_append_running {ε : Type} (handle : ε → World → Step) :
    ∀ (pre post : List ε) (world : World), (eventLoop handle pre world).returned = false →
      eventLoop handle (pre ++ post) world =
        ⟨(eventLoop handle post (eventLoop handle pre world).world).world,
          (eventLoop handle pre world).actions ++
            (eventLoop handle post (eventLoop handle pre world).world).actions,
          (eventLoop handle post (eventLoop handle pre world).world).returned⟩ := by
  intro pre
  induction pre with
  | nil =>
    intro post world _
    simp [eventLoop]
  | cons e es ih =>
    intro post world h
    rw [List.cons_append]
    cases hr : (handle e world).returned with
    | true =>
      rw [eventLoop_cons_returned handle e es world hr, hr] at h
      cases h
    | false =>
      rw [eventLoop_cons_running handle e es world hr] at h
      rw [eventLoop_cons_running handle e _ world hr, eventLoop_cons_running handle e es world hr,
        ih post _ h]
      simp only [List.append_assoc]

/-- The number of acknowledgements of termination: one if the loop has returned, none
otherwise. -/
theorem Terminal.count_ack {ε : Type} [DecidableEq ε] {handle : ε → World → Step} {term : ε}
    (ht : Terminal handle term) :
    ∀ (es : List ε) (world : World),
      (eventLoop handle es world).actions.count Action.terminateAck =
        if (eventLoop handle es world).returned = true then 1 else 0 := by
  intro es
  induction es with
  | nil => intro world; rfl
  | cons e es ih =>
    intro world
    by_cases he : e = term
    · subst he
      rw [eventLoop_cons_returned handle e es world (ht.returns world), ht.one_ack world,
        ht.returns world, if_pos rfl]
    · rw [eventLoop_cons_running handle e es world (ht.goes_on e world he)]
      simp only [List.count_append, ht.no_ack e world he, Nat.zero_add]
      exact ih _

/-- After the request to terminate the loop has returned. -/
theorem Terminal.returned_after {ε : Type} [DecidableEq ε] {handle : ε → World → Step}
    {term : ε} (ht : Terminal handle term) :
    ∀ (pre : List ε) (world : World),
      (eventLoop handle (pre ++ [term]) world).returned = true := by
  intro pre
  induction pre with
  | nil =>
    intro world
    rw [List.nil_append, eventLoop_cons_returned handle term [] world (ht.returns world)]
    exact ht.returns world
  | cons e es ih =>
    intro world
    rw [List.cons_append]
    cases hr : (handle e world).returned with
    | true => rw [eventLoop_cons_returned handle e _ world hr]; exact hr
    | false => rw [eventLoop_cons_running handle e _ world hr]; exact ih _

/-- Termination is terminal, for any loop whose body is terminal on `term`. -/
theorem Terminal.spec {ε : Type} [DecidableEq ε] {handle : ε → World → Step} {term : ε}
    (ht : Terminal handle term) (world : World) (pre post : List ε) :
    eventLoop handle (pre ++ term :: post) world = eventLoop handle (pre ++ [term]) world ∧
    (eventLoop handle (pre ++ term :: post) world).returned = true ∧
    (eventLoop handle (pre ++ term :: post) world).actions.count Action.terminateAck = 1 ∧
    ((eventLoop handle pre world).returned = false →
      eventLoop handle (pre ++ term :: post) world =
        ⟨(eventLoop handle pre world).world,
          (eventLoop handle pre world).actions ++
            (handle term (eventLoop handle pre world).world).actions, true⟩) := by
  have h1 : eventLoop handle (pre ++ term :: post) world =
      eventLoop handle (pre ++ [term]) world := by
    have : pre ++ term :: post = (pre ++ [term]) ++ post := by simp
    rw [this, eventLoop_append_returned handle _ post world (ht.returned_after pre world)]
  have h2 := ht.returned_after pre world
  refine ⟨h1, by rw [h1]; exact h2, ?_, ?_⟩
  · rw [h1, ht.count_ack, if_pos h2]
  · intro hrun
    rw [h1, eventLoop_append_running handle pre [term] world hrun,
      eventLoop_cons_returned handle term [] _ (ht.returns _), ht.keeps, ht.returns]

/-! ### The bodies of the two loops -/

theorem render_paused_noAck (r : SDLRenderer) :
    ∀ rects : List Rect, ∀ a ∈ r.render_paused rects, a.isAck = false := by
  intro rects
  induction rects with
  | nil => intro a h; simp [SDLRenderer.render_paused] at h
  | cons rect rects ih =>
    intro a h
    simp only [SDLRenderer.render_paused, List.cons_append, List.nil_append,
      List.mem_cons] at h
    rcases h with h | h | h
    · rw [h]; rfl
    · rw [h]; rfl
    · exact ih a h

theorem render_speccy_noAck (r : SDLRenderer) :
    ∀ rects : List Rect, ∀ a ∈ r.render_speccy rects, a.isAck = false := by
  intro rects
  induction rects with
  | nil => intro a h; simp [SDLRenderer.render_speccy] at h
  | cons rect rects ih =>
    intro a h
    simp only [SDLRenderer.render_speccy, List.cons_append, List.nil_append,
      List.mem_cons] at h
    rcases h with h | h | h
    · rw [h]; rfl
    · rw [h]; rfl
    · exact ih a h

theorem render_cli_noAck (r : SDLRenderer) :
    ∀ rects : List Rect, ∀ a ∈ r.render_cli rects, a.isAck = false := by
  intro rects
  induction rects with
  | nil => intro a h; simp [SDLRenderer.render_cli] at h
  | cons rect rects ih =>
    intro a h
    simp only [SDLRenderer.render_cli, List.cons_append, List.nil_append,
      List.mem_cons] at h
    rcases h with h | h | h
    · rw [h]; rfl
    · rw [h]; rfl
    · exact ih a h

theorem blitAll_noAck (r : SDLRenderer) : ∀ a ∈ r.blitAll, a.isAck = false := by
  intro a h
  simp only [SDLRenderer.blitAll, List.mem_cons, List.mem_singleton] at h
  rcases h with h | h | h | h
  · rw [h]; rfl
  · rw [h]; rfl
  · rw [h]; rfl
  · cases h

theorem render_noAck (r : SDLRenderer) (p : Bool) (s c : List Rect) :
    ∀ a ∈ r.render p s c, a.isAck = false := by
  intro a h
  simp only [SDLRenderer.render] at h
  split_ifs at h
  · exact render_paused_noAck r s a h
  · simp only [List.mem_append, List.mem_singleton] at h
    rcases h with (h | h) | h
    · exact render_speccy_noAck r s a h
    · exact render_cli_noAck r c a h
    · rw [h]; rfl
  · exact blitAll_noAck r a h

/-- A list without acknowledgement has no acknowledgement of termination. -/
theorem count_terminateAck_of_noAck (l : List Action) (h : ∀ a ∈ l, a.isAck = false) :
    l.count Action.terminateAck = 0 :=
  List.count_eq_zero.2 (fun hm => by have := h _ hm; simp [Action.isAck] at this)

/-- The body of `SDLRenderer.loop` acknowledges only on `Pause` and `Terminate`. -/
theorem SDLRenderer.handle_noAck (e : RendererEvent) (world : World)
    (h1 : e ≠ RendererEvent.Pause) (h2 : e ≠ RendererEvent.Terminate) :
    (SDLRenderer.handle e world).returned = false ∧
    ∀ a ∈ (SDLRenderer.handle e world).actions, a.isAck = false := by
  cases e with
  | Pause => exact absurd rfl h1
  | Terminate => exact absurd rfl h2
  | slideDownValue v => exact ⟨rfl, render_noAck _ _ _ _⟩
  | slideUpValue v => exact ⟨rfl, render_noAck _ _ _ _⟩
  | slideDownFinished => exact ⟨rfl, fun a h => by simp [SDLRenderer.handle] at h⟩
  | slideUpFinished => exact ⟨rfl, fun a h => by simp [SDLRenderer.handle] at h⟩
  | cliSurfaceCh s =>
    refine ⟨rfl, fun a h => ?_⟩
    simp only [SDLRenderer.handle, List.cons_append, List.nil_append, List.mem_cons] at h
    rcases h with h | h | h
    · rw [h]; rfl
    · rw [h]; rfl
    · exact blitAll_noAck _ a h
  | speccySurfaceCh s =>
    refine ⟨rfl, fun a h => ?_⟩
    simp only [SDLRenderer.handle, List.cons_append, List.nil_append, List.mem_cons] at h
    rcases h with h | h | h
    · rw [h]; rfl
    · rw [h]; rfl
    · exact blitAll_noAck _ a h
  | appSurfaceCh s =>
    refine ⟨rfl, fun a h => ?_⟩
    simp only [SDLRenderer.handle, List.cons_append, List.nil_append, List.mem_cons] at h
    rcases h with h | h | h
    · rw [h]; rfl
    · rw [h]; rfl
    · exact blitAll_noAck _ a h
  | cliRects rects => exact ⟨rfl, render_noAck _ _ _ _⟩
  | speccyRects rects => exact ⟨rfl, render_noAck _ _ _ _⟩

/-- The messages of `verboseKeyboard` are no acknowledgement. -/
theorem verboseKeyboardMsgs_noAck : ∀ a ∈ verboseKeyboardMsgs, a.isAck = false := by
  intro a h
  simp only [verboseKeyboardMsgs, List.mem_cons, List.mem_singleton] at h
  rcases h with h | h | h | h | h | h | h | h
  all_goals first
    | (rw [h]; rfl)
    | cases h

theorem handleKey_f10_noAck (world : World) :
    ∀ a ∈ (handleKey_f10 world).2, a.isAck = false := by
  intro a h
  unfold handleKey_f10 at h
  split_ifs at h
  · simp only [List.cons_append, List.nil_append, List.mem_cons] at h
    rcases h with h | h
    · rw [h]; rfl
    · split_ifs at h
      · rw [List.mem_singleton.1 h]; rfl
      · rw [List.mem_singleton.1 h]; rfl
  · cases h

theorem handleKey_console_noAck (e : KeyboardEvent) :
    ∀ a ∈ handleKey_console e, a.isAck = false := by
  intro a h
  unfold handleKey_console at h
  split_ifs at h
  all_goals first
    | (rw [List.mem_singleton.1 h]; rfl)
    | cases h

theorem handleKey_spectrum_noAck (SDL_KeyMap : String → Option (List Nat))
    (e : KeyboardEvent) : ∀ a ∈ handleKey_spectrum SDL_KeyMap e, a.isAck = false := by
  intro a h
  unfold handleKey_spectrum at h
  split at h
  · split_ifs at h
    · obtain ⟨n, -, rfl⟩ := List.mem_map.1 h
      rfl
    · obtain ⟨n, -, rfl⟩ := List.mem_map.1 h
      rfl
    · cases h
  · cases h

/-- The case of a key makes no acknowledgement. -/
theorem handleKey_noAck (SDL_KeyMap : String → Option (List Nat)) (verboseKeyboard : Bool)
    (k : KeyboardEvent) (world : World) :
    ∀ a ∈ (handleKey SDL_KeyMap verboseKeyboard k world).2, a.isAck = false := by
  have hm : ∀ a ∈ (if verboseKeyboard then verboseKeyboardMsgs else []), a.isAck = false := by
    intro a h
    split_ifs at h
    · exact verboseKeyboardMsgs_noAck a h
    · cases h
  have hv : ∀ (msg : String), ∀ a ∈ (if world.Verbose then [Action.PrintfMsg msg] else []),
      a.isAck = false := by
    intro msg a h
    split_ifs at h
    · rw [List.mem_singleton.1 h]; rfl
    · cases h
  intro a h
  unfold handleKey at h
  simp only [] at h
  by_cases h1 : k.keyName = "escape" ∧ k.Type_ = KEYDOWN
  · rw [if_pos h1] at h
    simp only [List.mem_append, List.mem_singleton] at h
    rcases h with (h | h) | h
    · exact hm a h
    · exact hv _ a h
    · rw [h]; rfl
  · rw [if_neg h1] at h
    by_cases h2 : k.keyName = "f10" ∧ k.Type_ = KEYDOWN
    · rw [if_pos h2] at h
      simp only [List.mem_append] at h
      rcases h with (h | h) | h
      · exact hm a h
      · exact hv _ a h
      · exact handleKey_f10_noAck world a h
    · rw [if_neg h2] at h
      by_cases h3 : (!world.cliPaused) = true
      · rw [if_pos h3] at h
        simp only [List.mem_append] at h
        rcases h with h | h
        · exact hm a h
        · exact handleKey_console_noAck k a h
      · rw [if_neg h3] at h
        simp only [List.mem_append] at h
        rcases h with h | h
        · exact hm a h
        · exact handleKey_spectrum_noAck SDL_KeyMap k a h

/-- The body of `sdlEventLoop` acknowledges only on `Pause` and `Terminate`. -/
theorem sdlEventLoop_handle_noAck (SDL_KeyMap : String → Option (List Nat))
    (verboseKeyboard : Bool) (e : LoopEvent) (world : World)
    (h1 : e ≠ LoopEvent.Pause) (h2 : e ≠ LoopEvent.Terminate) :
    (sdlEventLoop_handle SDL_KeyMap verboseKeyboard e world).returned = false ∧
    ∀ a ∈ (sdlEventLoop_handle SDL_KeyMap verboseKeyboard e world).actions,
      a.isAck = false := by
  cases e with
  | Pause => exact absurd rfl h1
  | Terminate => exact absurd rfl h2
  | sdl event =>
    cases event with
    | QuitEvent =>
      refine ⟨rfl, fun a h => ?_⟩
      simp only [sdlEventLoop_handle, List.mem_append, List.mem_singleton] at h
      rcases h with h | h
      · split_ifs at h
        · rw [List.mem_singleton.1 h]; rfl
        · cases h
      · rw [h]; rfl
    | KeyboardEvent k => exact ⟨rfl, handleKey_noAck SDL_KeyMap verboseKeyboard k world⟩
    | other => exact ⟨rfl, fun a h => by simp [sdlEventLoop_handle] at h⟩

/-- The acknowledgement of termination is made once, also with the message of
`app.Verbose` before it. -/
theorem count_terminateAck_exit (verbose : Bool) (msg : String) :
    ((if verbose then [Action.PrintfMsg msg] else []) ++ [Action.terminateAck]).count
      Action.terminateAck = 1 := by
  cases verbose <;> simp [List.count_cons]

/-- The body of `SDLRenderer.loop` is terminal on `Terminate`. -/
theorem SDLRenderer.handle_terminal : Terminal SDLRenderer.handle RendererEvent.Terminate where
  returns := fun _ => rfl
  keeps := fun _ => rfl
  one_ack := fun world => count_terminateAck_exit world.Verbose _
  goes_on := fun e world he => by
    by_cases hp : e = RendererEvent.Pause
    · rw [hp]; rfl
    · exact (SDLRenderer.handle_noAck e world hp he).1
  no_ack := fun e world he => by
    by_cases hp : e = RendererEvent.Pause
    · rw [hp]; rfl
    · exact count_terminateAck_of_noAck _ (SDLRenderer.handle_noAck e world hp he).2

/-- The body of `sdlEventLoop` is terminal on `Terminate`. -/
theorem sdlEventLoop_handle_terminal (SDL_KeyMap : String → Option (List Nat))
    (verboseKeyboard : Bool) :
    Terminal (sdlEventLoop_handle SDL_KeyMap verboseKeyboard) LoopEvent.Terminate where
  returns := fun _ => rfl
  keeps := fun _ => rfl
  one_ack := fun world => count_terminateAck_exit world.Verbose _
  goes_on := fun e world he => by
    by_cases hp : e = LoopEvent.Pause
    · rw [hp]; rfl
    · exact (sdlEventLoop_handle_noAck SDL_KeyMap verboseKeyboard e world hp he).1
  no_ack := fun e world he => by
    by_cases hp : e = LoopEvent.Pause
    · rw [hp]; rfl
    · exact count_terminateAck_of_noAck _
        (sdlEventLoop_handle_noAck SDL_KeyMap verboseKeyboard e world hp he).2

/-- A pause received while the loop runs: one acknowledgement, and the loop goes on as
without it. -/
theorem eventLoop_pause {ε : Type} (handle : ε → World → Step) (pause : ε)
    (hp : ∀ world, handle pause world = ⟨world, [Action.pauseAck], false⟩)
    (world : World) (pre post : List ε) (hrun : (eventLoop handle pre world).returned = false) :
    eventLoop handle (pre ++ pause :: post) world =
      ⟨(eventLoop handle (pre ++ post) world).world,
        (eventLoop handle pre world).actions ++
          Action.pauseAck :: (eventLoop handle post (eventLoop handle pre world).world).actions,
        (eventLoop handle (pre ++ post) world).returned⟩ ∧
    eventLoop handle (pre ++ post) world =
      ⟨(eventLoop handle post (eventLoop handle pre world).world).world,
        (eventLoop handle pre world).actions ++
          (eventLoop handle post (eventLoop handle pre world).world).actions,
        (eventLoop handle post (eventLoop handle pre world).world).returned⟩ := by
  have h2 := eventLoop_append_running handle pre post world hrun
  refine ⟨?_, h2⟩
  rw [eventLoop_append_running handle pre (pause :: post) world hrun,
    eventLoop_cons_running handle pause post _ (by rw [hp]), hp, h2]
  rfl

/-- C13: in `SDLRenderer.loop` and in `sdlEventLoop`, run on the sequence of events they
receive: with `Terminate` in the sequence, the events after it change nothing, the
worker has returned and has sent exactly one acknowledgement on the Terminate channel;
when the worker is still running after the events `pre`, it returns in the world reached
after `pre`, having added only the message of `app.Verbose` and the acknowledgement. -/
theorem terminate_is_terminal (SDL_KeyMap : String → Option (List Nat))
    (verboseKeyboard : Bool) (world : World) (pre post : List RendererEvent)
    (pre' post' : List LoopEvent) :
    (SDLRenderer.loop (pre ++ RendererEvent.Terminate :: post) world =
        SDLRenderer.loop (pre ++ [RendererEvent.Terminate]) world ∧
      (SDLRenderer.loop (pre ++ RendererEvent.Terminate :: post) world).returned = true ∧
      (SDLRenderer.loop (pre ++ RendererEvent.Terminate :: post) world).actions.count
        Action.terminateAck = 1 ∧
      ((SDLRenderer.loop pre world).returned = false →
        SDLRenderer.loop (pre ++ RendererEvent.Terminate :: post) world =
          ⟨(SDLRenderer.loop pre world).world,
            (SDLRenderer.loop pre world).actions ++
              ((if (SDLRenderer.loop pre world).world.Verbose then
                  [Action.PrintfMsg "Frontend SDL renderer event loop: exit"] else []) ++
                [Action.terminateAck]), true⟩)) ∧
    (sdlEventLoop SDL_KeyMap verboseKeyboard (pre' ++ LoopEvent.Terminate :: post') world =
        sdlEventLoop SDL_KeyMap verboseKeyboard (pre' ++ [LoopEvent.Terminate]) world ∧
      (sdlEventLoop SDL_KeyMap verboseKeyboard (pre' ++ LoopEvent.Terminate :: post')
        world).returned = true ∧
      (sdlEventLoop SDL_KeyMap verboseKeyboard (pre' ++ LoopEvent.Terminate :: post')
        world).actions.count Action.terminateAck = 1 ∧
      ((sdlEventLoop SDL_KeyMap verboseKeyboard pre' world).returned = false →
        sdlEventLoop SDL_KeyMap verboseKeyboard (pre' ++ LoopEvent.Terminate :: post') world =
          ⟨(sdlEventLoop SDL_KeyMap verboseKeyboard pre' world).world,
            (sdlEventLoop SDL_KeyMap verboseKeyboard pre' world).actions ++
              ((if (sdlEventLoop SDL_KeyMap verboseKeyboard pre' world).world.Verbose then
                  [Action.PrintfMsg "SDL event loop: exit"] else []) ++
                [Action.terminateAck]), true⟩)) :=
  ⟨SDLRenderer.handle_terminal.spec world pre post,
    (sdlEventLoop_handle_terminal SDL_KeyMap verboseKeyboard).spec world pre' post'⟩

/-- C14: in `SDLRenderer.loop` and in `sdlEventLoop`, the body for `Pause` leaves the
world unchanged, sends exactly one acknowledgement on the Pause channel and does not
return; a `Pause` received while the worker runs leaves the same final world and the
same actions as the run without it, with the one acknowledgement added in its place. -/
theorem pause_changes_nothing (SDL_KeyMap : String → Option (List Nat))
    (verboseKeyboard : Bool) (world : World) (pre post : List RendererEvent)
    (pre' post' : List LoopEvent) :
    (SDLRenderer.handle RendererEvent.Pause world = ⟨world, [Action.pauseAck], false⟩ ∧
      ((SDLRenderer.loop pre world).returned = false →
        SDLRenderer.loop (pre ++ RendererEvent.Pause :: post) world =
          ⟨(SDLRenderer.loop (pre ++ post) world).world,
            (SDLRenderer.loop pre world).actions ++ Action.pauseAck ::
              (SDLRenderer.loop post (SDLRenderer.loop pre world).world).actions,
            (SDLRenderer.loop (pre ++ post) world).returned⟩ ∧
        SDLRenderer.loop (pre ++ post) world =
          ⟨(SDLRenderer.loop post (SDLRenderer.loop pre world).world).world,
            (SDLRenderer.loop pre world).actions ++
              (SDLRenderer.loop post (SDLRenderer.loop pre world).world).actions,
            (SDLRenderer.loop post (SDLRenderer.loop pre world).world).returned⟩)) ∧
    (sdlEventLoop_handle SDL_KeyMap verboseKeyboard LoopEvent.Pause world =
        ⟨world, [Action.pauseAck], false⟩ ∧
      ((sdlEventLoop SDL_KeyMap verboseKeyboard pre' world).returned = false →
        sdlEventLoop SDL_KeyMap verboseKeyboard (pre' ++ LoopEvent.Pause :: post') world =
          ⟨(sdlEventLoop SDL_KeyMap verboseKeyboard (pre' ++ post') world).world,
            (sdlEventLoop SDL_KeyMap verboseKeyboard pre' world).actions ++ Action.pauseAck ::
              (sdlEventLoop SDL_KeyMap verboseKeyboard post'
                (sdlEventLoop SDL_KeyMap verboseKeyboard pre' world).world).actions,
            (sdlEventLoop SDL_KeyMap verboseKeyboard (pre' ++ post') world).returned⟩ ∧
        sdlEventLoop SDL_KeyMap verboseKeyboard (pre' ++ post') world =
          ⟨(sdlEventLoop SDL_KeyMap verboseKeyboard post'
              (sdlEventLoop SDL_KeyMap verboseKeyboard pre' world).world).world,
            (sdlEventLoop SDL_KeyMap verboseKeyboard pre' world).actions ++
              (sdlEventLoop SDL_KeyMap verboseKeyboard post'
                (sdlEventLoop SDL_KeyMap verboseKeyboard pre' world).world).actions,
            (sdlEventLoop SDL_KeyMap verboseKeyboard post'
              (sdlEventLoop SDL_KeyMap verboseKeyboard pre' world).world).returned⟩)) :=
  ⟨⟨rfl, eventLoop_pause SDLRenderer.handle RendererEvent.Pause (fun _ => rfl) world pre post⟩,
    ⟨rfl, eventLoop_pause (sdlEventLoop_handle SDL_KeyMap verboseKeyboard) LoopEvent.Pause
      (fun _ => rfl) world pre' post'⟩⟩

/-- Witness of C13: a pause, an animation value, the request to terminate, and one
more animation value that is not received. -/
theorem terminate_is_terminal_witness :
    SDLRenderer.loop ([RendererEvent.Pause, RendererEvent.slideDownValue 5] ++
        RendererEvent.Terminate :: [RendererEvent.slideUpValue 7]) world0 =
      ⟨(SDLRenderer.loop [RendererEvent.Pause, RendererEvent.slideDownValue 5] world0).world,
        (SDLRenderer.loop [RendererEvent.Pause, RendererEvent.slideDownValue 5] world0).actions ++
          ((if (SDLRenderer.loop [RendererEvent.Pause, RendererEvent.slideDownValue 5]
              world0).world.Verbose then
              [Action.PrintfMsg "Frontend SDL renderer event loop: exit"] else []) ++
            [Action.terminateAck]), true⟩ := by
  have h := (terminate_is_terminal (fun _ => none) false world0
    [RendererEvent.Pause, RendererEvent.slideDownValue 5] [RendererEvent.slideUpValue 7]
    [] []).1.2.2.2
  exact h (by decide)

/-- Witness of C14: a pause between two animation values. -/
theorem pause_changes_nothing_witness :
    SDLRenderer.loop ([RendererEvent.slideDownValue 5] ++
        RendererEvent.Pause :: [RendererEvent.slideUpValue 7]) world0 =
      ⟨(SDLRenderer.loop ([RendererEvent.slideDownValue 5] ++ [RendererEvent.slideUpValue 7])
          world0).world,
        (SDLRenderer.loop [RendererEvent.slideDownValue 5] world0).actions ++
          Action.pauseAck :: (SDLRenderer.loop [RendererEvent.slideUpValue 7]
            (SDLRenderer.loop [RendererEvent.slideDownValue 5] world0).world).actions,
        (SDLRenderer.loop ([RendererEvent.slideDownValue 5] ++ [RendererEvent.slideUpValue 7])
          world0).returned⟩ := by
  have h := (pause_changes_nothing (fun _ => none) false world0
    [RendererEvent.slideDownValue 5] [RendererEvent.slideUpValue 7] [] []).1.2
  exact (h (by decide)).1

end Frontend
